import Mathlib

/-!
FlashGuard seizure detection: a shallow embedding of
`FlashGuard_Seizure_Detection.cpp` and theorems about it.

Modelling conventions.

* A grid (the source's matrix type) is a `Mat`: a row count, a column count and
  an entry function.  `m.val i j` stands for the entry at `(i, j)`; it is
  meaningful for `i < m.rows` and `j < m.cols`.
* Element types.  A sample of an 8-bit frame is a natural number below 256.  An
  entry of a `CV_32S` grid is an integer; counts stay far below the 32-bit
  range, so `Int` is used without wrap-around.  An entry of a `CV_32F` grid is
  the rational value of the binary32 number that it holds; a store into such an
  entry rounds to the nearest binary32 number (`float32_round`), and the
  double-precision arithmetic in front of the store is taken exactly.  The
  decimal constants of the source are written as fractions (`0.1` is `1 / 10`).
* A read `at<T>` whose `T` is not the element type of the grid delivers the
  stored bits under `T`.  `at_int v` is what `at<int>` reads from a binary32
  entry of value `v` (lines 194-207), and `float32_ge (int32_pattern n) b` is
  the comparison `at<float>(i, j) >= b` on a 32-bit integer entry `n`
  (lines 103 and 111).
* Frames are values.  The source passes matrix headers that share one pixel
  buffer with the entries of `frame_buffer` and rewrites that buffer in place
  (lines 140-141, 162-165, 220-221); this sharing is not represented, and `lum`
  below maps a pixel as it stands when its frame is compared.
* `time_t` values are whole seconds, modelled by `Int`.
* The processing loop is generic in the pixel type `P` of the frames and in the
  per-pixel map `lum` from a pixel to the number that `is_luminance_flash`
  reads for it: `luminance_at_int pow` for 8-bit colour frames, `at_int` for a
  stream given by its luminance grids.
* Capture, colour conversion and resizing (lines 37-51, 61-62, 71) are outside
  the embedding: an iteration receives the frame that they deliver and the
  clock value read at line 74.
-/

namespace FlashGuard

/-! ## Grids -/

/-- Grid with `rows * cols` entries; `val i j` is the entry at `(i, j)`. -/
structure Mat (α : Type) where
  rows : Nat
  cols : Nat
  val : Nat → Nat → α

/-- The grid `zeros(rows, cols, CV_32S)`. -/
def zeros (rows cols : Nat) : Mat Int :=
  ⟨rows, cols, fun _ _ => 0⟩

/-- Test `m.empty()`: the grid has no element. -/
def Mat.empty {α : Type} (m : Mat α) : Bool :=
  m.rows == 0 || m.cols == 0

/-- Apply a per-pixel function to every entry of a grid (same dimensions). -/
def Mat.map {α β : Type} (f : α → β) (m : Mat α) : Mat β :=
  ⟨m.rows, m.cols, fun i j => f (m.val i j)⟩

/-! ## Machine numbers

Rounding to an integer, the binary32 format (1 sign bit, 8 exponent bits, 23
fraction bits) and the two reads that reinterpret 32 stored bits. -/

/-- Rounding to the nearest integer, ties to the even one: the rounding of the
library when it stores a scaled value into an integer grid, and of a binary32
significand. -/
def round_half_even (q : ℚ) : Int :=
  if q - ⌊q⌋ < 1 / 2 then ⌊q⌋
  else if 1 / 2 < q - ⌊q⌋ then ⌊q⌋ + 1
  else if ⌊q⌋ % 2 = 0 then ⌊q⌋ else ⌊q⌋ + 1

/-- Store of the exact value `q` into a binary32 entry (lines 179 and 238):
the nearest number with a 24-bit significand and an exponent of at least -126
(below that the numbers are subnormal).  Overflow to infinity is not
represented; every stored value of the source is at most 1 in magnitude. -/
def float32_round (q : ℚ) : ℚ :=
  if q = 0 then 0
  else (round_half_even (q / 2 ^ (max (Int.log 2 |q|) (-126) - 23)) : ℚ) *
    2 ^ (max (Int.log 2 |q|) (-126) - 23)

/-- Bit pattern of the binary32 number of value `q`: the sign bit, then the
biased exponent and the fraction (for a subnormal number the significand
alone). -/
def float32_bits (q : ℚ) : Nat :=
  (if q < 0 then 2 ^ 31 else 0) +
    (if q = 0 then 0
     else if ⌊|q| / 2 ^ (max (Int.log 2 |q|) (-126) - 23)⌋₊ < 2 ^ 23 then
       ⌊|q| / 2 ^ (max (Int.log 2 |q|) (-126) - 23)⌋₊
     else (max (Int.log 2 |q|) (-126) + 127).toNat * 2 ^ 23 +
       (⌊|q| / 2 ^ (max (Int.log 2 |q|) (-126) - 23)⌋₊ - 2 ^ 23))

/-- Value of the finite binary32 number with bit pattern `p`. -/
def float32_value (p : Nat) : ℚ :=
  (if p / 2 ^ 31 % 2 = 0 then 1 else -1) *
    (if p / 2 ^ 23 % 256 = 0 then ((p % 2 ^ 23 : Nat) : ℚ) / 2 ^ 149
     else ((2 ^ 23 + p % 2 ^ 23 : Nat) : ℚ) * 2 ^ (((p / 2 ^ 23 % 256 : Nat) : Int) - 150))

/-- The 32 bits `p` read as a signed integer (two's complement). -/
def float32_at_int (p : Nat) : Int :=
  if p < 2 ^ 31 then (p : Int) else (p : Int) - 2 ^ 32

/-- What `at<int>(i, j)` delivers on a binary32 entry of value `v`
(lines 194-207): the integer whose bits are those of `v`. -/
def at_int (v : ℚ) : ℚ :=
  ((float32_at_int (float32_bits v) : Int) : ℚ)

/-- The 32 bits of the signed integer `n`. -/
def int32_pattern (n : Int) : Nat :=
  (n % 2 ^ 32).toNat

/-- Test `x >= bound` on the binary32 number `x` with bit pattern `p`: an
exponent field of 255 is an infinity (fraction 0) or a NaN, and only plus
infinity passes the test. -/
def float32_ge (p : Nat) (bound : ℚ) : Bool :=
  if p / 2 ^ 23 % 256 = 255 then decide (p % 2 ^ 23 = 0 ∧ p / 2 ^ 31 % 2 = 0)
  else decide (float32_value p ≥ bound)

/-! ## General luminance flash classifier (lines 186-217)

The function reads both luminance grids with `at<int>` and compares what it
reads.  The definitions below are its body on the numbers read; they are
stated for any ordered field, and the source instantiates them with the
integers `at_int v` of the binary32 luminances `v` (`is_luminance_flash_f32`). -/

section Classifier

variable {α : Type} [LinearOrderedField α]

/-- First loop of `is_luminance_flash` (lines 192-203): the larger of the two
numbers read at one pixel. -/
def brighter_ls (ls prev_ls : α) : α :=
  if ls > prev_ls then ls else prev_ls

/-- First loop of `is_luminance_flash` (lines 192-203): the smaller of the two
numbers read at one pixel. -/
def darker_ls (ls prev_ls : α) : α :=
  if ls > prev_ls then prev_ls else ls

/-- Second loop of `is_luminance_flash` (lines 205-214): the flag at one pixel. -/
def flashing_flag (brighter darker : α) : Int :=
  if brighter - darker ≥ 1 / 10 ∧ darker < 8 / 10 then 1 else 0

/-- Body of `is_luminance_flash` (lines 186-217) on the grids of the numbers
read: the result has the dimensions of `ls`, and pixel `(i, j)` is flagged from
the larger and the smaller of `ls(i, j)` and `prev_ls(i, j)`. -/
def is_luminance_flash (ls prev_ls : Mat α) : Mat Int :=
  ⟨ls.rows, ls.cols, fun i j =>
    flashing_flag (brighter_ls (ls.val i j) (prev_ls.val i j))
      (darker_ls (ls.val i j) (prev_ls.val i j))⟩

end Classifier

/-- Function `is_luminance_flash` (lines 186-217) on two `CV_32F` luminance
grids, as the source calls it: every entry is read with `at<int>`. -/
def is_luminance_flash_f32 (ls prev_ls : Mat ℚ) : Mat Int :=
  is_luminance_flash (ls.map at_int) (prev_ls.map at_int)

/-! ## Colorimetric transform (lines 139-184)

The frame holds 8-bit samples, and lines 140 and 161-165 write their results
back into it, so every intermediate value is stored as an 8-bit sample.  The
library function `pow` is a parameter of the definitions; the theorems take it
to be the real power function. -/

/-- Line 140 on one sample: `color / 255` computed by the library into the 8-bit
frame, rounded to the nearest integer (a sample is below 256, so the quotient
is at most 1 and is never saturated). -/
def normalise (v : Nat) : Nat :=
  (round_half_even ((v : ℚ) / 255)).toNat

section Colorimetric

variable {α : Type} [LinearOrderedField α] [FloorRing α]

/-- Body of the innermost loop of `inverse_gamma_transform` (lines 161-166) for
one 8-bit sample `c`: the sample is compared with `0.03928`, and the quotient
by `12.92`, or the power with exponent `2.4`, is stored back into the 8-bit
sample, which drops its fractional part. -/
def inverse_gamma_transform (pow : α → α → α) (c : Nat) : Nat :=
  if (c : α) ≤ 3928 / 100000 then ⌊(c : α) / (1292 / 100)⌋₊
  else ⌊pow (((c : α) + 55 / 1000) / (1055 / 1000)) (24 / 10)⌋₊

/-- Per-channel transform of `luminance_flash_count` (lines 140 and 143): the
sample is divided by 255 and passed through `inverse_gamma_transform`. -/
def toLinear (pow : α → α → α) (x : Nat) : Nat :=
  inverse_gamma_transform pow (normalise x)

/-- Body of the loop of `linearRBG_to_Ls` (line 179) for one linear pixel: the
weighted sum of the three 8-bit samples, stored into a binary32 entry. -/
def linearRBG_to_Ls (linearRGB : Nat × Nat × Nat) : ℚ :=
  float32_round (2126 / 10000 * (linearRGB.1 : ℚ) + 7152 / 10000 * (linearRGB.2.1 : ℚ) +
    722 / 10000 * (linearRGB.2.2 : ℚ))

/-- Per-pixel composite of lines 140-147: normalise, linearise each channel,
weigh the channels.  The result is the luminance stored in the grid `Ls`. -/
def sample_luminance (pow : α → α → α) (sRGB : Nat × Nat × Nat) : ℚ :=
  linearRBG_to_Ls (toLinear pow sRGB.1, toLinear pow sRGB.2.1, toLinear pow sRGB.2.2)

/-- The number that `is_luminance_flash` reads for one pixel of an 8-bit colour
frame: the luminance of lines 140-147 read with `at<int>`. -/
def luminance_at_int (pow : α → α → α) (sRGB : Nat × Nat × Nat) : ℚ :=
  at_int (sample_luminance pow sRGB)

end Colorimetric

section FlashCount

variable {α : Type} [LinearOrderedField α]

/-- Function `luminance_flash_count` (lines 139-150): the flag grid that it
returns, from the pixels of its two arguments as they stand at the call.
Lines 140-147 act pixel by pixel; `lum` is their per-pixel composite followed
by the read of `is_luminance_flash` (`luminance_at_int pow` in the source), so
`color.map lum` and `prev_color.map lum` are the grids of the numbers read from
`Ls` and `prev_Ls`. -/
def luminance_flash_count {P : Type} (lum : P → α) (color prev_color : Mat P) : Mat Int :=
  is_luminance_flash (color.map lum) (prev_color.map lum)

end FlashCount

/-! ## Saturated red classifier (lines 219-231) -/

/-- Function `is_saturated_red_flash` (lines 229-231): a 1 x 1 grid of zeros,
whatever the two frames are. -/
def is_saturated_red_flash {L : Type} (_linear_color _prev_linear_color : Mat L) : Mat Int :=
  zeros 1 1

/-- Function `saturated_red_flash_count` (lines 219-227): the frames are
normalised and linearised, and the result is that of `is_saturated_red_flash`,
which does not read them. -/
def saturated_red_flash_count {P : Type} (color prev_color : Mat P) : Mat Int :=
  is_saturated_red_flash color prev_color

/-! ## Array arithmetic of the matrix library

The sum and difference of two grids are taken entry by entry when the sizes
agree; a 1 x 1 operand is treated as a scalar and applied to every entry of the
other operand; any other pair of sizes raises an error. -/

/-- Library operation `a + b` on integer grids (`none`: sizes do not match). -/
def mat_add (a b : Mat Int) : Option (Mat Int) :=
  if a.rows = b.rows ∧ a.cols = b.cols then
    some ⟨a.rows, a.cols, fun i j => a.val i j + b.val i j⟩
  else if b.rows = 1 ∧ b.cols = 1 then
    some ⟨a.rows, a.cols, fun i j => a.val i j + b.val 0 0⟩
  else if a.rows = 1 ∧ a.cols = 1 then
    some ⟨b.rows, b.cols, fun i j => a.val 0 0 + b.val i j⟩
  else none

/-- Library operation `a - b` on integer grids (`none`: sizes do not match). -/
def mat_sub (a b : Mat Int) : Option (Mat Int) :=
  if a.rows = b.rows ∧ a.cols = b.cols then
    some ⟨a.rows, a.cols, fun i j => a.val i j - b.val i j⟩
  else if b.rows = 1 ∧ b.cols = 1 then
    some ⟨a.rows, a.cols, fun i j => a.val i j - b.val 0 0⟩
  else if a.rows = 1 ∧ a.cols = 1 then
    some ⟨b.rows, b.cols, fun i j => a.val 0 0 - b.val i j⟩
  else none

/-! ## Frequency and area decision rule (lines 53, 91-119) -/

/-- Constant `BUFFER_SIZE` (line 23). -/
def BUFFER_SIZE : Nat := 16

/-- Line 53: `quarter_area_threshold = (frame_width * frame_height) / 4`, an
integer quotient. -/
def quarter_area_threshold (frame_width frame_height : Nat) : Nat :=
  (frame_width * frame_height) / 4

/-- Lines 95-96 at one entry.  The accumulator is a `CV_32S` grid, and so is the
grid that the library computes for `(flashes / 2) / interval`: each count is
scaled by `(1 / 2) * (1 / interval)` and rounded to the nearest integer. -/
def pixel_freq (count interval : Int) : Int :=
  round_half_even ((count : ℚ) * (1 / 2 * (1 / (interval : ℚ))))

/-- Lines 95-96: the frequency grid `(flashes / 2) / interval`, a grid of 32-bit
integers. -/
def flash_freq (flashes : Mat Int) (interval : Int) : Mat Int :=
  ⟨flashes.rows, flashes.cols, fun i j => pixel_freq (flashes.val i j) interval⟩

/-- Lines 101-107 (and 109-115): the number of entries of the frequency grid
that pass `at<float>(i, j) >= 3`, the entry being a 32-bit integer whose bits
are read as a binary32 number. -/
def count_flashing (freq : Mat Int) : Nat :=
  ((List.range freq.rows).map fun i =>
    (List.range freq.cols).countP fun j => float32_ge (int32_pattern (freq.val i j)) 3).sum

/-- Line 117: the test that prints "Flashing Detected!". -/
def flashing_detected (luminous_count red_count threshold : Nat) : Bool :=
  decide (luminous_count ≥ threshold ∨ red_count ≥ threshold)

/-! ## The processing loop (lines 60-132) -/

/-- Variables of `main` that live across iterations (lines 31-34 and 55-56). -/
structure MainState (P : Type) where
  frame_buffer : List (Mat P)
  time_buffer : List Int
  luminous_flash_buffer : List (Mat Int)
  red_flash_buffer : List (Mat Int)
  luminous_flashes : Mat Int
  red_flashes : Mat Int

/-- How one pass through the loop body ends. -/
inductive Outcome (σ : Type) where
  /-- The body ran to its end; `verdict` is `some b` when the decision block ran
  (`b` tells whether "Flashing Detected!" was printed). -/
  | next (s : σ) (verdict : Option Bool)
  /-- The `break` of line 66 was taken. -/
  | stopped (s : σ)
  /-- An array operation raised an error, or `front()` was applied to an empty
  deque; `s` is the state at that point. -/
  | failed (s : σ) (verdict : Option Bool)

/-- State before the loop (lines 31-34, 55-56): empty buffers and two zero
accumulators of `frame_height` rows and `frame_width` columns. -/
def main_init (P : Type) (frame_height frame_width : Nat) : MainState P :=
  ⟨[], [], [], [], zeros frame_height frame_width, zeros frame_height frame_width⟩

section Loop

variable {α : Type} [LinearOrderedField α] {P : Type}

/-- Lines 76-87: classify the newest frame against the one before it, push both
flag grids and add them to the accumulators.  An error value carries the state
at the failing addition. -/
def accumulate (lum : P → α) (s : MainState P) : Except (MainState P) (MainState P) :=
  if s.frame_buffer.length > 1 then
    match s.frame_buffer[s.frame_buffer.length - 1]?, s.frame_buffer[s.frame_buffer.length - 2]? with
    | some cur_frame, some prev_frame =>
      let luminous := luminance_flash_count lum cur_frame prev_frame
      let red := saturated_red_flash_count cur_frame prev_frame
      let luminous_flash_buffer := s.luminous_flash_buffer ++ [luminous]
      match mat_add s.luminous_flashes luminous with
      | none =>
        Except.error ⟨s.frame_buffer, s.time_buffer, luminous_flash_buffer, s.red_flash_buffer,
          s.luminous_flashes, s.red_flashes⟩
      | some luminous_flashes =>
        let red_flash_buffer := s.red_flash_buffer ++ [red]
        match mat_add s.red_flashes red with
        | none =>
          Except.error ⟨s.frame_buffer, s.time_buffer, luminous_flash_buffer, red_flash_buffer,
            luminous_flashes, s.red_flashes⟩
        | some red_flashes =>
          Except.ok ⟨s.frame_buffer, s.time_buffer, luminous_flash_buffer, red_flash_buffer,
            luminous_flashes, red_flashes⟩
    | _, _ => Except.error s
  else Except.ok s

/-- Lines 121-128: drop the oldest frame, timestamp and flag grids, and subtract
the dropped flag grids from the accumulators.  An error value carries the state
at the failing statement. -/
def evict (s : MainState P) : Except (MainState P) (MainState P) :=
  let frame_buffer := s.frame_buffer.tail
  let time_buffer := s.time_buffer.tail
  match s.luminous_flash_buffer with
  | [] =>
    Except.error ⟨frame_buffer, time_buffer, [], s.red_flash_buffer, s.luminous_flashes,
      s.red_flashes⟩
  | front :: luminous_flash_buffer =>
    match mat_sub s.luminous_flashes front with
    | none =>
      Except.error ⟨frame_buffer, time_buffer, front :: luminous_flash_buffer,
        s.red_flash_buffer, s.luminous_flashes, s.red_flashes⟩
    | some luminous_flashes =>
      match s.red_flash_buffer with
      | [] =>
        Except.error ⟨frame_buffer, time_buffer, luminous_flash_buffer, [], luminous_flashes,
          s.red_flashes⟩
      | red_front :: red_flash_buffer =>
        match mat_sub s.red_flashes red_front with
        | none =>
          Except.error ⟨frame_buffer, time_buffer, luminous_flash_buffer,
            red_front :: red_flash_buffer, luminous_flashes, s.red_flashes⟩
        | some red_flashes =>
          Except.ok ⟨frame_buffer, time_buffer, luminous_flash_buffer, red_flash_buffer,
            luminous_flashes, red_flashes⟩

/-- Line 89: `time_buffer[time_buffer.size() - 1] - time_buffer[0]`. -/
def interval_of (time_buffer : List Int) : Int :=
  time_buffer.getD (time_buffer.length - 1) 0 - time_buffer.getD 0 0

/-- Lines 91-117: the verdict computed by the decision block from the two
accumulators. -/
def decide_flashing (s : MainState P) (interval : Int) (threshold : Nat) : Bool :=
  flashing_detected (count_flashing (flash_freq s.luminous_flashes interval))
    (count_flashing (flash_freq s.red_flashes interval)) threshold

/-- Body of the `while` loop (lines 61-131) for one captured frame, already
converted and resized, and the clock value `now` read at line 74. -/
def main_iteration (lum : P → α) (threshold : Nat) (s : MainState P) (frame : Mat P)
    (now : Int) : Outcome (MainState P) :=
  if frame.empty then Outcome.stopped s
  else
    match accumulate lum ⟨s.frame_buffer ++ [frame], s.time_buffer ++ [now],
        s.luminous_flash_buffer, s.red_flash_buffer, s.luminous_flashes, s.red_flashes⟩ with
    | Except.error e => Outcome.failed e none
    | Except.ok s1 =>
      let interval := interval_of s1.time_buffer
      if s1.frame_buffer.length ≥ BUFFER_SIZE ∧ interval ≥ 1 then
        let verdict := decide_flashing s1 interval threshold
        match evict s1 with
        | Except.error e => Outcome.failed e (some verdict)
        | Except.ok s2 => Outcome.next s2 (some verdict)
      else Outcome.next s1 none

/-- The `while` loop run on a finite list of captured frames with their clock
values: the final state and the verdicts emitted, in order.  `none` when an
iteration fails. -/
def main_loop (lum : P → α) (threshold : Nat) :
    MainState P → List (Mat P × Int) → Option (MainState P × List Bool)
  | s, [] => some (s, [])
  | s, (frame, now) :: rest =>
    match main_iteration lum threshold s frame now with
    | Outcome.next s1 verdict =>
      match main_loop lum threshold s1 rest with
      | some (s2, verdicts) => some (s2, verdict.toList ++ verdicts)
      | none => none
    | Outcome.stopped s1 => some (s1, [])
    | Outcome.failed _ _ => none

/-- Function `main` from line 53 on, for a working resolution of `frame_height`
rows and `frame_width` columns. -/
def main (lum : P → α) (frame_height frame_width : Nat) (inputs : List (Mat P × Int)) :
    Option (MainState P × List Bool) :=
  main_loop lum (quarter_area_threshold frame_width frame_height)
    (main_init P frame_height frame_width) inputs

/-- Shape of the loop state for a working resolution of `h` rows and `w`
columns: sizes of the accumulators and of the buffered grids, alignment of the
four buffers, and the values of the two accumulators. -/
structure Inv (h w : Nat) (s : MainState P) : Prop where
  lum_rows : s.luminous_flashes.rows = h
  lum_cols : s.luminous_flashes.cols = w
  red_rows : s.red_flashes.rows = h
  red_cols : s.red_flashes.cols = w
  flag_dims : ∀ g ∈ s.luminous_flash_buffer, g.rows = h ∧ g.cols = w
  red_flags : ∀ r ∈ s.red_flash_buffer, r = zeros 1 1
  frame_dims : ∀ f ∈ s.frame_buffer, f.rows = h ∧ f.cols = w
  time_len : s.time_buffer.length = s.frame_buffer.length
  lum_len : s.luminous_flash_buffer.length = s.frame_buffer.length - 1
  red_len : s.red_flash_buffer.length = s.frame_buffer.length - 1
  lum_sum : ∀ i j, s.luminous_flashes.val i j =
    (s.luminous_flash_buffer.map fun g => g.val i j).sum
  red_zero : ∀ i j, s.red_flashes.val i j = 0

/-- States of the loop reachable from the initial state by iterations that run
to their end on frames of `h` rows and `w` columns. -/
inductive Reachable (lum : P → α) (h w : Nat) : MainState P → Prop where
  | init : Reachable lum h w (main_init P h w)
  | step {s s1 : MainState P} {frame : Mat P} {now : Int} {verdict : Option Bool} :
      Reachable lum h w s → frame.rows = h → frame.cols = w →
      main_iteration lum (quarter_area_threshold w h) s frame now = Outcome.next s1 verdict →
      Reachable lum h w s1

end Loop

/-! ## Window bookkeeping on timestamps alone

Whether the decision block runs in an iteration depends only on the buffered
and the incoming timestamps. -/

/-- Number of iterations in which the decision block runs, from the buffered
timestamps and the incoming ones. -/
def window_decisions : List Int → List Int → Nat
  | _, [] => 0
  | time_buffer, now :: rest =>
    if (time_buffer ++ [now]).length ≥ BUFFER_SIZE ∧ interval_of (time_buffer ++ [now]) ≥ 1 then
      window_decisions (time_buffer ++ [now]).tail rest + 1
    else window_decisions (time_buffer ++ [now]) rest

/-! ## Synthetic streams of the test scenarios -/

/-- Luminance grid of `h` rows and `w` columns holding `v` at every pixel. -/
def uniform_grid (h w : Nat) (v : ℚ) : Mat ℚ :=
  ⟨h, w, fun _ _ => v⟩

/-- Stream of `n` uniform luminance grids, `a` at even and `b` at odd positions,
delivered at `fps` frames per second: frame `k` carries the clock value
`k / fps` in whole seconds. -/
def alternating_stream (h w : Nat) (a b : ℚ) (fps n : Nat) : List (Mat ℚ × Int) :=
  (List.range n).map fun k =>
    (uniform_grid h w (if k % 2 = 0 then a else b), ((k / fps : Nat) : Int))

/-! ## Red features (lines 233-243) -/

/-- Divisor of line 238 for one pixel of an 8-bit frame: the three samples plus
`1e-10`. -/
def red_ratio_divisor (sRGB : Nat × Nat × Nat) : ℚ :=
  (sRGB.1 : ℚ) + (sRGB.2.1 : ℚ) + (sRGB.2.2 : ℚ) + 1 / 10000000000

/-- Body of the loop of `red_ratio` (line 238) for one pixel: the quotient is
stored into a binary32 entry of the result grid. -/
def red_ratio (sRGB : Nat × Nat × Nat) : ℚ :=
  float32_round ((sRGB.1 : ℚ) / red_ratio_divisor sRGB)

/-! ## Flag grids of the buffered frames -/

section Alignment

variable {α : Type} [LinearOrderedField α] {P : Type}

/-- Luminance flag grids of the consecutive pairs of a frame buffer, oldest pair
first: entry `k` is computed between frame `k` and frame `k + 1`. -/
def consecutive_flags (lum : P → α) (frame_buffer : List (Mat P)) : List (Mat Int) :=
  List.zipWith (fun prev_frame cur_frame => luminance_flash_count lum cur_frame prev_frame)
    frame_buffer frame_buffer.tail

/-- Red flag grids of the consecutive pairs of a frame buffer, oldest pair first. -/
def consecutive_red_flags (frame_buffer : List (Mat P)) : List (Mat Int) :=
  List.zipWith (fun prev_frame cur_frame => saturated_red_flash_count cur_frame prev_frame)
    frame_buffer frame_buffer.tail

end Alignment

/-! ## Streams with a flashing region -/

/-- Number of pixels of the `h` x `w` grid that belong to the set `S`. -/
def pixel_count (h w : Nat) (S : Nat → Nat → Bool) : Nat :=
  ((List.range h).map fun i => (List.range w).countP fun j => S i j).sum

/-- Luminance grid in which every pixel of `S` holds `v` and every other pixel
`(i, j)` holds `c i j`. -/
def region_grid (h w : Nat) (S : Nat → Nat → Bool) (v : ℚ) (c : Nat → Nat → ℚ) : Mat ℚ :=
  ⟨h, w, fun i j => if S i j then v else c i j⟩

/-- Stream of `n` luminance grids in which the pixels of `S` hold `a` at even and
`b` at odd positions and every other pixel keeps its value `c i j`, delivered at
`fps` frames per second (frame `k` carries the clock value `k / fps`). -/
def region_stream (h w : Nat) (S : Nat → Nat → Bool) (a b : ℚ) (c : Nat → Nat → ℚ)
    (fps n : Nat) : List (Mat ℚ × Int) :=
  (List.range n).map fun k =>
    (region_grid h w S (if k % 2 = 0 then a else b) c, ((k / fps : Nat) : Int))

/-! ## Theorems -/

section LoopLemmas

variable {α : Type} [LinearOrderedField α] {P : Type}

/-! ### Machine numbers -/

/-- Rounding a non-negative value gives a non-negative integer. -/
theorem round_half_even_nonneg (q : ℚ) (h : 0 ≤ q) : 0 ≤ round_half_even q := by
  have hf : 0 ≤ ⌊q⌋ := Int.floor_nonneg.mpr h
  unfold round_half_even
  split_ifs <;> omega

/-- Rounding does not step over an integer. -/
theorem round_half_even_le (q : ℚ) (N : Int) (h : q ≤ N) : round_half_even q ≤ N := by
  have hfl : (⌊q⌋ : ℚ) ≤ q := Int.floor_le q
  have hf : ⌊q⌋ ≤ N := by exact_mod_cast hfl.trans h
  have hstep : ¬ (q - ⌊q⌋ < 1 / 2) → ⌊q⌋ + 1 ≤ N := by
    intro hn
    have hlt : (⌊q⌋ : ℚ) < N := by linarith
    have : ⌊q⌋ < N := by exact_mod_cast hlt
    omega
  unfold round_half_even
  split_ifs with h1 h2 h3
  · exact hf
  · exact hstep h1
  · exact hf
  · exact hstep h1

/-- A value less than one half away from the integer `n` rounds to `n`. -/
theorem round_half_even_of_lt (q : ℚ) (n : Int) (h1 : (n : ℚ) - 1 / 2 < q)
    (h2 : q < (n : ℚ) + 1 / 2) : round_half_even q = n := by
  rcases le_or_lt (n : ℚ) q with hq | hq
  · have hfl : ⌊q⌋ = n := Int.floor_eq_iff.mpr ⟨hq, by linarith⟩
    unfold round_half_even
    rw [hfl, if_pos (by linarith)]
  · have hfl : ⌊q⌋ = n - 1 := Int.floor_eq_iff.mpr ⟨by push_cast; linarith, by push_cast; linarith⟩
    unfold round_half_even
    rw [hfl, if_neg (by push_cast; linarith), if_pos (by push_cast; linarith)]
    omega

/-- An integer rounds to itself. -/
theorem round_half_even_intCast (n : Int) : round_half_even (n : ℚ) = n :=
  round_half_even_of_lt _ n (by linarith) (by linarith)

/-- A 32-bit integer from 0 up to `2 ^ 23 - 1`, read as a binary32 number, is a
subnormal number below `2 ^ (-126)`, so it fails the test `>= 3`. -/
theorem float32_ge_small (n : Int) (h0 : 0 ≤ n) (h1 : n < 2 ^ 23) :
    float32_ge (int32_pattern n) 3 = false := by
  obtain ⟨k, rfl⟩ := Int.eq_ofNat_of_zero_le h0
  have hk : k < 2 ^ 23 := by exact_mod_cast h1
  have hp : int32_pattern (k : Int) = k := by
    unfold int32_pattern
    rw [Int.emod_eq_of_lt (by omega) (by omega)]
    simp
  have he : k / 2 ^ 23 = 0 := Nat.div_eq_of_lt hk
  have hs : k / 2 ^ 31 = 0 := Nat.div_eq_of_lt (by omega)
  have hm : k % 2 ^ 23 = k := Nat.mod_eq_of_lt hk
  have hv : float32_value k < 3 := by
    unfold float32_value
    rw [he, hs, hm]
    simp only [Nat.zero_mod, if_true, one_mul]
    have hkq : (k : ℚ) < 2 ^ 23 := by exact_mod_cast hk
    rw [div_lt_iff₀ (by positivity)]
    calc (k : ℚ) < 2 ^ 23 := hkq
      _ ≤ 3 * 2 ^ 149 := by norm_num
  unfold float32_ge
  rw [hp, he]
  simp only [Nat.zero_mod]
  rw [if_neg (by decide)]
  simp only [ge_iff_le, decide_eq_false_iff_not, not_le]
  exact hv

/-- The binary logarithm of a value between two consecutive powers of 2. -/
theorem int_log_two_eq (q : ℚ) (e : Int) (hq : 0 < q) (hlo : (2 : ℚ) ^ e ≤ q)
    (hhi : q < (2 : ℚ) ^ (e + 1)) : Int.log 2 q = e := by
  have h1 : e ≤ Int.log 2 q := (Int.zpow_le_iff_le_log (by norm_num) hq).mp (by exact_mod_cast hlo)
  have h2 : Int.log 2 q < e + 1 := (Int.lt_zpow_iff_log_lt (by norm_num) hq).mp (by exact_mod_cast hhi)
  omega

/-- The binary32 store of a positive normal value, from its exponent and its
rounded significand. -/
theorem float32_round_eq (q : ℚ) (e n : Int) (hq : 0 < q) (hlo : (2 : ℚ) ^ e ≤ q)
    (hhi : q < (2 : ℚ) ^ (e + 1)) (he : -126 ≤ e)
    (hn : round_half_even (q / 2 ^ (e - 23)) = n) :
    float32_round q = (n : ℚ) * 2 ^ (e - 23) := by
  unfold float32_round
  rw [if_neg hq.ne', abs_of_pos hq, int_log_two_eq q e hq hlo hhi, max_eq_left he, hn]

/-- The bit pattern of a positive normal binary32 value, from its exponent and
its significand. -/
theorem float32_bits_eq (q : ℚ) (e : Int) (m E : Nat) (hq : 0 < q) (hlo : (2 : ℚ) ^ e ≤ q)
    (hhi : q < (2 : ℚ) ^ (e + 1)) (he : -126 ≤ e)
    (hm : ⌊q / 2 ^ (e - 23)⌋₊ = m) (hm23 : 2 ^ 23 ≤ m) (hE : e + 127 = (E : Int)) :
    float32_bits q = E * 2 ^ 23 + (m - 2 ^ 23) := by
  unfold float32_bits
  rw [if_neg (not_lt.mpr hq.le), if_neg hq.ne', abs_of_pos hq, int_log_two_eq q e hq hlo hhi,
    max_eq_left he, hm, if_neg (not_lt.mpr hm23), hE]
  simp

/-- Zero is stored as zero. -/
theorem float32_round_zero : float32_round 0 = 0 := by
  simp [float32_round]

/-- One is a binary32 number. -/
theorem float32_round_one : float32_round 1 = 1 := by
  rw [float32_round_eq 1 0 (2 ^ 23) (by norm_num) (by norm_num) (by norm_num) (by norm_num)
    (by
      have : ((1 : ℚ) / 2 ^ ((0 : Int) - 23)) = ((2 ^ 23 : Int) : ℚ) := by norm_num [zpow_neg]
      rw [this, round_half_even_intCast])]
  norm_num [zpow_neg]

/-- The store of a non-negative value is non-negative. -/
theorem float32_round_nonneg (q : ℚ) (h : 0 ≤ q) : 0 ≤ float32_round q := by
  unfold float32_round
  split_ifs with h0
  · exact le_refl 0
  · apply mul_nonneg
    · exact_mod_cast round_half_even_nonneg _ (div_nonneg h (by positivity))
    · positivity

/-- The store of a value of at most 1 is at most 1. -/
theorem float32_round_le_one (q : ℚ) (h : q ≤ 1) : float32_round q ≤ 1 := by
  unfold float32_round
  split_ifs with h0
  · norm_num
  · rcases lt_or_le q 0 with hneg | hpos
    · have hr : round_half_even (q / 2 ^ (max (Int.log 2 |q|) (-126) - 23)) ≤ 0 :=
        round_half_even_le _ 0 (by
          push_cast
          exact div_nonpos_of_nonpos_of_nonneg hneg.le (by positivity))
      have hr2 : (round_half_even (q / 2 ^ (max (Int.log 2 |q|) (-126) - 23)) : ℚ) ≤ 0 := by
        exact_mod_cast hr
      have hp : (0 : ℚ) ≤ 2 ^ (max (Int.log 2 |q|) (-126) - 23) := by positivity
      nlinarith
    · have hq : 0 < q := lt_of_le_of_ne hpos (Ne.symm h0)
      rw [abs_of_pos hq]
      have hlog : Int.log 2 q < 1 :=
        (Int.lt_zpow_iff_log_lt (by norm_num) hq).mp (by norm_num; linarith)
      obtain ⟨k, hk⟩ : ∃ k : Nat, max (Int.log 2 q) (-126) - 23 = -(k : Int) :=
        ⟨(-(max (Int.log 2 q) (-126) - 23)).toNat, by
          have : max (Int.log 2 q) (-126) ≤ 0 := max_le (by omega) (by norm_num)
          omega⟩
      rw [hk]
      have hr : round_half_even (q / 2 ^ (-(k : Int))) ≤ ((2 ^ k : Nat) : Int) :=
        round_half_even_le _ _ (by
          rw [zpow_neg, zpow_natCast, div_inv_eq_mul]
          push_cast
          have : (0 : ℚ) < 2 ^ k := by positivity
          nlinarith)
      have hr2 : (round_half_even (q / 2 ^ (-(k : Int))) : ℚ) ≤ 2 ^ k := by
        exact_mod_cast hr
      have hp : (0 : ℚ) < 2 ^ k := by positivity
      have hz : ((2 : ℚ) ^ (-(k : Int))) = (2 ^ k)⁻¹ := by rw [zpow_neg, zpow_natCast]
      calc (round_half_even (q / 2 ^ (-(k : Int))) : ℚ) * 2 ^ (-(k : Int))
          ≤ 2 ^ k * 2 ^ (-(k : Int)) := mul_le_mul_of_nonneg_right hr2 (by positivity)
        _ = 1 := by rw [hz]; field_simp

/-- The binary32 number nearest to 0.3. -/
theorem float32_round_three_tenths : float32_round (3 / 10) = 5033165 / 16777216 := by
  rw [float32_round_eq (3 / 10) (-2) 10066330 (by norm_num) (by norm_num [zpow_neg])
    (by norm_num [zpow_neg]) (by norm_num)
    (round_half_even_of_lt _ _ (by norm_num [zpow_neg]) (by norm_num [zpow_neg]))]
  norm_num [zpow_neg]

/-- The binary32 number nearest to 0.05. -/
theorem float32_round_one_twentieth : float32_round (1 / 20) = 13421773 / 268435456 := by
  rw [float32_round_eq (1 / 20) (-5) 13421773 (by norm_num) (by norm_num [zpow_neg])
    (by norm_num [zpow_neg]) (by norm_num)
    (round_half_even_of_lt _ _ (by norm_num [zpow_neg]) (by norm_num [zpow_neg]))]
  norm_num [zpow_neg]

/-- The number 0.5 is a binary32 number. -/
theorem float32_round_half : float32_round (1 / 2) = 1 / 2 := by
  rw [float32_round_eq (1 / 2) (-1) 8388608 (by norm_num) (by norm_num [zpow_neg])
    (by norm_num [zpow_neg]) (by norm_num)
    (round_half_even_of_lt _ _ (by norm_num [zpow_neg]) (by norm_num [zpow_neg]))]
  norm_num [zpow_neg]

/-- What `at<int>` reads from an entry holding 0. -/
theorem at_int_zero : at_int 0 = 0 := by
  simp [at_int, float32_bits, float32_at_int]

/-- What `at<int>` reads from an entry holding 0.5. -/
theorem at_int_half : at_int (1 / 2) = 1056964608 := by
  unfold at_int
  rw [float32_bits_eq (1 / 2) (-1) 8388608 126 (by norm_num) (by norm_num [zpow_neg])
    (by norm_num [zpow_neg]) (by norm_num)
    ((Nat.floor_eq_iff (by positivity)).mpr ⟨by norm_num [zpow_neg], by norm_num [zpow_neg]⟩)
    (by norm_num) (by norm_num)]
  norm_num [float32_at_int]

/-- What `at<int>` reads from an entry holding the binary32 number nearest to
0.3. -/
theorem at_int_three_tenths : at_int (float32_round (3 / 10)) = 1050253722 := by
  rw [float32_round_three_tenths]
  unfold at_int
  rw [float32_bits_eq (5033165 / 16777216) (-2) 10066330 125 (by norm_num) (by norm_num [zpow_neg])
    (by norm_num [zpow_neg]) (by norm_num)
    ((Nat.floor_eq_iff (by positivity)).mpr ⟨by norm_num [zpow_neg], by norm_num [zpow_neg]⟩)
    (by norm_num) (by norm_num)]
  norm_num [float32_at_int]

/-- What `at<int>` reads from an entry holding the binary32 number nearest to
0.05. -/
theorem at_int_one_twentieth : at_int (float32_round (1 / 20)) = 1028443341 := by
  rw [float32_round_one_twentieth]
  unfold at_int
  rw [float32_bits_eq (13421773 / 268435456) (-5) 13421773 122 (by norm_num)
    (by norm_num [zpow_neg]) (by norm_num [zpow_neg]) (by norm_num)
    ((Nat.floor_eq_iff (by positivity)).mpr ⟨by norm_num [zpow_neg], by norm_num [zpow_neg]⟩)
    (by norm_num) (by norm_num)]
  norm_num [float32_at_int]

/-! ### Array arithmetic -/

/-- Sum of two grids of the same size: entry by entry. -/
theorem mat_add_same (a b : Mat Int) (hr : a.rows = b.rows) (hc : a.cols = b.cols) :
    mat_add a b = some ⟨a.rows, a.cols, fun i j => a.val i j + b.val i j⟩ := by
  simp [mat_add, hr, hc]

/-- Difference of two grids of the same size: entry by entry. -/
theorem mat_sub_same (a b : Mat Int) (hr : a.rows = b.rows) (hc : a.cols = b.cols) :
    mat_sub a b = some ⟨a.rows, a.cols, fun i j => a.val i j - b.val i j⟩ := by
  simp [mat_sub, hr, hc]

/-- Adding the 1 x 1 zero grid leaves a grid of any size unchanged. -/
theorem mat_add_zeros_one (a : Mat Int) : mat_add a (zeros 1 1) = some a := by
  unfold mat_add
  by_cases h : a.rows = (zeros 1 1).rows ∧ a.cols = (zeros 1 1).cols
  · rw [if_pos h]; simp [zeros]
  · rw [if_neg h, if_pos ⟨rfl, rfl⟩]; simp [zeros]

/-- Subtracting the 1 x 1 zero grid leaves a grid of any size unchanged. -/
theorem mat_sub_zeros_one (a : Mat Int) : mat_sub a (zeros 1 1) = some a := by
  unfold mat_sub
  by_cases h : a.rows = (zeros 1 1).rows ∧ a.cols = (zeros 1 1).cols
  · rw [if_pos h]; simp [zeros]
  · rw [if_neg h, if_pos ⟨rfl, rfl⟩]; simp [zeros]

/-! ### One iteration of the loop -/

/-- The last two entries of a buffer after two pushes, as indexed at lines 77-78. -/
theorem getElem?_last_two {β : Type} (l : List β) (p f : β) :
    (l ++ [p] ++ [f])[(l ++ [p] ++ [f]).length - 1]? = some f ∧
    (l ++ [p] ++ [f])[(l ++ [p] ++ [f]).length - 2]? = some p := by
  have h1 : (l ++ [p] ++ [f]).length - 1 = l.length + 1 := by simp
  have h2 : (l ++ [p] ++ [f]).length - 2 = l.length := by simp
  rw [h1, h2, List.append_assoc]
  constructor
  · rw [List.getElem?_append_right (by omega)]; simp
  · rw [List.getElem?_append_right (by omega)]; simp

/-- Dropping the head of a buffer with at least two entries keeps its last entry. -/
theorem getLast?_tail_concat {β : Type} (l : List β) (x : β) (hl : 2 ≤ (l ++ [x]).length) :
    (l ++ [x]).tail.getLast? = some x := by
  cases l with
  | nil => simp at hl
  | cons y l' => simp

/-- The state before the loop satisfies the shape invariant. -/
theorem inv_init (h w : Nat) : Inv h w (main_init P h w) := by
  constructor <;> simp [main_init, zeros]

/-- The luminance flag grid has the dimensions of the current frame. -/
theorem luminance_flash_count_dims (lum : P → α) (color prev_color : Mat P) :
    (luminance_flash_count lum color prev_color).rows = color.rows ∧
    (luminance_flash_count lum color prev_color).cols = color.cols := ⟨rfl, rfl⟩

/-- A frame with at least one row and one column is not empty. -/
theorem not_empty_of_dims {h w : Nat} (hh : 0 < h) (hw : 0 < w) (frame : Mat P)
    (hr : frame.rows = h) (hc : frame.cols = w) : frame.empty = false := by
  simp [Mat.empty, hr, hc]
  omega

/-- Lines 73-87 on a state satisfying the invariant and a frame of the working
resolution: the push and the accumulation succeed, and the invariant holds again. -/
theorem accumulate_spec (lum : P → α) {h w : Nat} {s : MainState P} (hs : Inv h w s)
    (frame : Mat P) (now : Int) (hr : frame.rows = h) (hc : frame.cols = w) :
    ∃ s1, accumulate lum ⟨s.frame_buffer ++ [frame], s.time_buffer ++ [now],
        s.luminous_flash_buffer, s.red_flash_buffer, s.luminous_flashes, s.red_flashes⟩
          = Except.ok s1 ∧ Inv h w s1 ∧
      s1.frame_buffer = s.frame_buffer ++ [frame] ∧
      s1.time_buffer = s.time_buffer ++ [now] ∧
      s1.luminous_flash_buffer = s.luminous_flash_buffer ++
        (s.frame_buffer.getLast?.map fun prev => luminance_flash_count lum frame prev).toList ∧
      s1.red_flash_buffer = s.red_flash_buffer ++
        (s.frame_buffer.getLast?.map fun _ => zeros 1 1).toList := by
  obtain ⟨fb, tb, lfb, rfb, lf, rf⟩ := s
  obtain ⟨h1, h2, h3, h4, h5, h6, h7, h8, h9, h10, h11, h12⟩ := hs
  simp only at h1 h2 h3 h4 h5 h6 h7 h8 h9 h10 h11 h12 ⊢
  rcases List.eq_nil_or_concat fb with hfb | ⟨l, p, hfb⟩
  · subst hfb
    refine ⟨⟨[] ++ [frame], tb ++ [now], lfb, rfb, lf, rf⟩, ?_, ?_, rfl, rfl, ?_, ?_⟩
    · simp [accumulate]
    · constructor <;> simp_all
    · simp
    · simp
  · rw [List.concat_eq_append] at hfb
    subst hfb
    have hidx := getElem?_last_two l p frame
    have hd := luminance_flash_count_dims lum frame p
    have hadd : mat_add lf (luminance_flash_count lum frame p) =
        some ⟨lf.rows, lf.cols, fun i j => lf.val i j + (luminance_flash_count lum frame p).val i j⟩ :=
      mat_add_same _ _ (by rw [hd.1, h1, hr]) (by rw [hd.2, h2, hc])
    refine ⟨⟨l ++ [p] ++ [frame], tb ++ [now], lfb ++ [luminance_flash_count lum frame p],
      rfb ++ [zeros 1 1], ⟨lf.rows, lf.cols, fun i j => lf.val i j + (luminance_flash_count lum frame p).val i j⟩, rf⟩, ?_, ?_, rfl, rfl, ?_, ?_⟩
    · simp only [accumulate]
      rw [hidx.1, hidx.2, if_pos (by simp)]
      simp only [hadd, saturated_red_flash_count, is_saturated_red_flash, mat_add_zeros_one]
    · constructor
      · exact h1
      · exact h2
      · exact h3
      · exact h4
      · intro g hg
        rcases List.mem_append.1 hg with hg | hg
        · exact h5 g hg
        · rw [List.mem_singleton.1 hg, hd.1, hd.2]; exact ⟨hr, hc⟩
      · intro r hr'
        rcases List.mem_append.1 hr' with hr' | hr'
        · exact h6 r hr'
        · exact List.mem_singleton.1 hr'
      · intro f hf
        rcases List.mem_append.1 hf with hf | hf
        · exact h7 f hf
        · rw [List.mem_singleton.1 hf]; exact ⟨hr, hc⟩
      · simp at h8 ⊢; omega
      · simp at h9 ⊢; omega
      · simp at h10 ⊢; omega
      · intro i j; simp [h11 i j]
      · exact h12
    · simp
    · simp

/-- Lines 121-128 on a state satisfying the invariant with at least two buffered
frames: the eviction succeeds, drops the head of each buffer, and keeps the
invariant. -/
theorem evict_spec {h w : Nat} {s : MainState P} (hs : Inv h w s)
    (hlen : 2 ≤ s.frame_buffer.length) :
    ∃ s2, evict s = Except.ok s2 ∧ Inv h w s2 ∧
      s2.frame_buffer = s.frame_buffer.tail ∧ s2.time_buffer = s.time_buffer.tail ∧
      s2.luminous_flash_buffer = s.luminous_flash_buffer.tail ∧
      s2.red_flash_buffer = s.red_flash_buffer.tail ∧
      s.luminous_flash_buffer ≠ [] ∧ s.red_flash_buffer ≠ [] := by
  obtain ⟨fb, tb, lfb, rfb, lf, rf⟩ := s
  obtain ⟨h1, h2, h3, h4, h5, h6, h7, h8, h9, h10, h11, h12⟩ := hs
  simp only at h1 h2 h3 h4 h5 h6 h7 h8 h9 h10 h11 h12 hlen ⊢
  cases lfb with
  | nil => simp at h9; omega
  | cons g lrest =>
    cases rfb with
    | nil => simp at h10; omega
    | cons r rrest =>
      have hg := h5 g (List.mem_cons_self _ _)
      have hrz : r = zeros 1 1 := h6 r (List.mem_cons_self _ _)
      subst hrz
      have hsub : mat_sub lf g = some ⟨lf.rows, lf.cols, fun i j => lf.val i j - g.val i j⟩ :=
        mat_sub_same _ _ (by rw [h1, hg.1]) (by rw [h2, hg.2])
      refine ⟨⟨fb.tail, tb.tail, lrest, rrest,
        ⟨lf.rows, lf.cols, fun i j => lf.val i j - g.val i j⟩, rf⟩, ?_, ?_, rfl, rfl, rfl, rfl,
        by simp, by simp⟩
      · simp only [evict, hsub, mat_sub_zeros_one]
      · constructor
        · exact h1
        · exact h2
        · exact h3
        · exact h4
        · intro g' hg'; exact h5 g' (List.mem_cons_of_mem _ hg')
        · intro r' hr'; exact h6 r' (List.mem_cons_of_mem _ hr')
        · intro f hf; exact h7 f (List.mem_of_mem_tail hf)
        · simp at h8 ⊢; omega
        · simp at h9 ⊢; omega
        · simp at h10 ⊢; omega
        · intro i j; simp [h11 i j]
        · exact h12

/-- One iteration on a state satisfying the invariant and a non-empty frame of the
working resolution: it runs to its end, with or without the decision block. -/
theorem iteration_spec (lum : P → α) (threshold : Nat) {h w : Nat} {s : MainState P}
    (hs : Inv h w s) (frame : Mat P) (now : Int) (hr : frame.rows = h) (hc : frame.cols = w)
    (hne : frame.empty = false) :
    ∃ s1, accumulate lum ⟨s.frame_buffer ++ [frame], s.time_buffer ++ [now],
        s.luminous_flash_buffer, s.red_flash_buffer, s.luminous_flashes, s.red_flashes⟩
          = Except.ok s1 ∧ Inv h w s1 ∧
      s1.frame_buffer = s.frame_buffer ++ [frame] ∧
      s1.time_buffer = s.time_buffer ++ [now] ∧
      s1.luminous_flash_buffer = s.luminous_flash_buffer ++
        (s.frame_buffer.getLast?.map fun prev => luminance_flash_count lum frame prev).toList ∧
      s1.red_flash_buffer = s.red_flash_buffer ++
        (s.frame_buffer.getLast?.map fun _ => zeros 1 1).toList ∧
      ((s1.frame_buffer.length ≥ BUFFER_SIZE ∧ interval_of s1.time_buffer ≥ 1 ∧
          ∃ s2, main_iteration lum threshold s frame now =
              Outcome.next s2 (some (decide_flashing s1 (interval_of s1.time_buffer) threshold)) ∧
            Inv h w s2 ∧
            s2.frame_buffer = s1.frame_buffer.tail ∧ s2.time_buffer = s1.time_buffer.tail ∧
            s2.luminous_flash_buffer = s1.luminous_flash_buffer.tail ∧
            s2.red_flash_buffer = s1.red_flash_buffer.tail ∧
            s1.luminous_flash_buffer ≠ [] ∧ s1.red_flash_buffer ≠ []) ∨
       (¬ (s1.frame_buffer.length ≥ BUFFER_SIZE ∧ interval_of s1.time_buffer ≥ 1) ∧
          main_iteration lum threshold s frame now = Outcome.next s1 none)) := by
  obtain ⟨s1, hacc, hinv1, hfb, htb, hlfb, hrfb⟩ := accumulate_spec lum hs frame now hr hc
  refine ⟨s1, hacc, hinv1, hfb, htb, hlfb, hrfb, ?_⟩
  by_cases hcond : s1.frame_buffer.length ≥ BUFFER_SIZE ∧ interval_of s1.time_buffer ≥ 1
  · left
    have hlen : 2 ≤ s1.frame_buffer.length := by
      have := hcond.1; simp only [BUFFER_SIZE] at this; omega
    obtain ⟨s2, hev, hinv2, e1, e2, e3, e4, e5, e6⟩ := evict_spec hinv1 hlen
    refine ⟨hcond.1, hcond.2, s2, ?_, hinv2, e1, e2, e3, e4, e5, e6⟩
    simp only [main_iteration, hne, hacc]
    rw [if_pos hcond]
    simp [hev]
  · right
    refine ⟨hcond, ?_⟩
    simp only [main_iteration, hne, hacc]
    rw [if_neg hcond]
    simp

/-- An iteration that runs to its end processed a non-empty frame. -/
theorem iteration_next_nonempty (lum : P → α) (threshold : Nat) {s s1 : MainState P}
    {frame : Mat P} {now : Int} {verdict : Option Bool}
    (hstep : main_iteration lum threshold s frame now = Outcome.next s1 verdict) :
    frame.empty = false := by
  cases he : frame.empty with
  | false => rfl
  | true => simp [main_iteration, he] at hstep

/-- The `break` of line 66 leaves the state as it was. -/
theorem iteration_stopped_state (lum : P → α) (threshold : Nat) {s s1 : MainState P}
    {frame : Mat P} {now : Int}
    (hstep : main_iteration lum threshold s frame now = Outcome.stopped s1) : s1 = s := by
  unfold main_iteration at hstep
  split_ifs at hstep with he
  · cases hstep; rfl
  · split at hstep
    · cases hstep
    · simp only at hstep
      split_ifs at hstep
      split at hstep <;> cases hstep

/-- An iteration that runs to its end preserves the invariant. -/
theorem iteration_inv (lum : P → α) (threshold : Nat) {h w : Nat} {s s1 : MainState P}
    (hs : Inv h w s) {frame : Mat P} {now : Int} {verdict : Option Bool}
    (hr : frame.rows = h) (hc : frame.cols = w)
    (hstep : main_iteration lum threshold s frame now = Outcome.next s1 verdict) :
    Inv h w s1 := by
  have hne := iteration_next_nonempty lum threshold hstep
  obtain ⟨s1', _, hinv1, _, _, _, _, hcase⟩ := iteration_spec lum threshold hs frame now hr hc hne
  rcases hcase with ⟨_, _, s2, hit, hinv2, _⟩ | ⟨_, hit⟩
  · rw [hit] at hstep
    cases hstep
    exact hinv2
  · rw [hit] at hstep
    cases hstep
    exact hinv1

/-- Every reachable state satisfies the invariant. -/
theorem reachable_inv (lum : P → α) {h w : Nat} {s : MainState P}
    (hs : Reachable lum h w s) : Inv h w s := by
  induction hs with
  | init => exact inv_init h w
  | step _ hr hc hstep ih => exact iteration_inv lum _ ih hr hc hstep

/-- The final state of a run on frames of the working resolution is reachable. -/
theorem main_loop_reachable (lum : P → α) {h w : Nat} :
    ∀ (inputs : List (Mat P × Int)) (s : MainState P), Reachable lum h w s →
      (∀ x ∈ inputs, x.1.rows = h ∧ x.1.cols = w) →
      ∀ s1 verdicts, main_loop lum (quarter_area_threshold w h) s inputs = some (s1, verdicts) →
        Reachable lum h w s1 := by
  intro inputs
  induction inputs with
  | nil =>
    intro s hs _ s1 vs hrun
    simp only [main_loop, Option.some.injEq, Prod.mk.injEq] at hrun
    rw [← hrun.1]; exact hs
  | cons x rest ih =>
    intro s hs hdims s1 vs hrun
    obtain ⟨frame, now⟩ := x
    have hd := hdims (frame, now) (List.mem_cons_self _ _)
    simp only [main_loop] at hrun
    cases hit : main_iteration lum (quarter_area_threshold w h) s frame now with
    | next s2 v =>
      rw [hit] at hrun
      simp only at hrun
      cases hrest : main_loop lum (quarter_area_threshold w h) s2 rest with
      | none => rw [hrest] at hrun; cases hrun
      | some r =>
        obtain ⟨s3, vs3⟩ := r
        rw [hrest] at hrun
        simp only [Option.some.injEq, Prod.mk.injEq] at hrun
        rw [← hrun.1]
        exact ih s2 (Reachable.step hs hd.1 hd.2 hit)
          (fun y hy => hdims y (List.mem_cons_of_mem _ hy)) s3 vs3 hrest
    | stopped s2 =>
      rw [hit] at hrun
      simp only [Option.some.injEq, Prod.mk.injEq] at hrun
      rw [← hrun.1, iteration_stopped_state lum _ hit]
      exact hs
    | failed s2 v =>
      rw [hit] at hrun
      cases hrun

/-- A run on frames of the working resolution never fails: from a state
satisfying the invariant the loop processes the whole list (or stops at an
empty frame) and ends in a state satisfying the invariant. -/
theorem main_loop_total (lum : P → α) (threshold : Nat) {h w : Nat} :
    ∀ (inputs : List (Mat P × Int)) (s : MainState P), Inv h w s →
      (∀ x ∈ inputs, x.1.rows = h ∧ x.1.cols = w) →
      ∃ s1 verdicts, main_loop lum threshold s inputs = some (s1, verdicts) ∧ Inv h w s1 := by
  intro inputs
  induction inputs with
  | nil =>
    intro s hs _
    exact ⟨s, [], rfl, hs⟩
  | cons x rest ih =>
    intro s hs hdims
    obtain ⟨frame, now⟩ := x
    have hd := hdims (frame, now) (List.mem_cons_self _ _)
    have hrest : ∀ y ∈ rest, y.1.rows = h ∧ y.1.cols = w :=
      fun y hy => hdims y (List.mem_cons_of_mem _ hy)
    cases he : frame.empty with
    | true =>
      refine ⟨s, [], ?_, hs⟩
      simp [main_loop, main_iteration, he]
    | false =>
      obtain ⟨s1, _, hinv1, _, _, _, _, hcase⟩ :=
        iteration_spec lum threshold hs frame now hd.1 hd.2 he
      rcases hcase with ⟨_, _, s2, hit, hinv2, _⟩ | ⟨_, hit⟩
      · obtain ⟨s3, vs, hrun, hinv3⟩ := ih s2 hinv2 hrest
        refine ⟨s3, (some (decide_flashing s1 (interval_of s1.time_buffer) threshold)).toList
          ++ vs, ?_, hinv3⟩
        simp only [main_loop]
        rw [hit]
        simp only [hrun]
      · obtain ⟨s3, vs, hrun, hinv3⟩ := ih s1 hinv1 hrest
        refine ⟨s3, (none : Option Bool).toList ++ vs, ?_, hinv3⟩
        simp only [main_loop]
        rw [hit]
        simp only [hrun]

/-- After the push, the interval of line 89 is the newest clock value minus the
oldest buffered one. -/
theorem interval_of_append (tb : List Int) (now : Int) :
    interval_of (tb ++ [now]) = now - (tb ++ [now]).headD now := by
  unfold interval_of
  have h1 : (tb ++ [now]).getD ((tb ++ [now]).length - 1) 0 = now := by
    simp [List.getD_eq_getElem?_getD]
  rw [h1]
  cases tb <;> simp

/-! ### Classifier and decision rule -/

/-- The flag of one pixel is 1 exactly when the two numbers read differ by at
least 0.1 and the smaller one is below 0.8. -/
theorem flag_eq_one_iff (a b : α) :
    flashing_flag (brighter_ls a b) (darker_ls a b) = 1 ↔
      (max a b - min a b ≥ 1 / 10 ∧ min a b < 8 / 10) := by
  have hb : brighter_ls a b = max a b := by
    unfold brighter_ls
    split_ifs with h
    · exact (max_eq_left (le_of_lt h)).symm
    · exact (max_eq_right (not_lt.1 h)).symm
  have hd : darker_ls a b = min a b := by
    unfold darker_ls
    split_ifs with h
    · exact (min_eq_right (le_of_lt h)).symm
    · exact (min_eq_left (not_lt.1 h)).symm
  rw [hb, hd]
  unfold flashing_flag
  split_ifs with h
  · exact ⟨fun _ => h, fun _ => rfl⟩
  · exact ⟨fun h1 => absurd h1 (by decide), fun h1 => absurd h1 h⟩

/-- The flag of one pixel is 0 exactly when it is not 1. -/
theorem flag_eq_zero_iff (a b : α) :
    flashing_flag (brighter_ls a b) (darker_ls a b) = 0 ↔
      ¬ (max a b - min a b ≥ 1 / 10 ∧ min a b < 8 / 10) := by
  rw [← flag_eq_one_iff]
  unfold flashing_flag
  split_ifs
  · exact ⟨fun h1 => absurd h1 (by decide), fun h1 => absurd rfl h1⟩
  · exact ⟨fun _ => by decide, fun _ => rfl⟩

/-- A flag is 0 or 1. -/
theorem flashing_flag_zero_or_one (brighter darker : α) :
    flashing_flag brighter darker = 0 ∨ flashing_flag brighter darker = 1 := by
  unfold flashing_flag
  split_ifs
  · exact Or.inr rfl
  · exact Or.inl rfl

/-- A sum of values that are 0 or 1 lies between 0 and their number. -/
theorem sum_zero_one_bounds (vals : List Int) (hv : ∀ v ∈ vals, v = 0 ∨ v = 1) :
    0 ≤ vals.sum ∧ vals.sum ≤ (vals.length : Int) := by
  induction vals with
  | nil => simp
  | cons v rest ih =>
    have h1 := hv v (List.mem_cons_self _ _)
    have h2 := ih (fun x hx => hv x (List.mem_cons_of_mem _ hx))
    simp only [List.sum_cons, List.length_cons]
    push_cast
    rcases h1 with h1 | h1 <;> omega

/-- The entry that the library computes for `(count / 2) / interval` lies between
0 and the count. -/
theorem pixel_freq_bounds (count interval : Int) (hc : 0 ≤ count) (ht : 1 ≤ interval) :
    0 ≤ pixel_freq count interval ∧ pixel_freq count interval ≤ count := by
  have htq : (1 : ℚ) ≤ interval := by exact_mod_cast ht
  have hcq : (0 : ℚ) ≤ count := by exact_mod_cast hc
  have hpos : (0 : ℚ) ≤ 1 / 2 * (1 / (interval : ℚ)) := by positivity
  have hle : 1 / 2 * (1 / (interval : ℚ)) ≤ 1 := by
    have : 1 / (interval : ℚ) ≤ 1 := by
      rw [div_le_one (by linarith)]
      exact htq
    linarith
  constructor
  · exact round_half_even_nonneg _ (mul_nonneg hcq hpos)
  · exact round_half_even_le _ _ (by nlinarith)

/-- No entry of a grid of integers from 0 up to `2 ^ 23 - 1` passes the test
`at<float>(i, j) >= 3` of lines 103 and 111. -/
theorem count_flashing_small (freq : Mat Int)
    (h : ∀ i j, 0 ≤ freq.val i j ∧ freq.val i j < 2 ^ 23) : count_flashing freq = 0 := by
  unfold count_flashing
  have hf : ∀ i j, float32_ge (int32_pattern (freq.val i j)) 3 = false :=
    fun i j => float32_ge_small _ (h i j).1 (h i j).2
  simp only [hf, List.countP_false, List.map_const', List.sum_replicate, Function.const,
    smul_zero]

/-- With a zero accumulator no pixel reaches the frequency threshold, whatever
the interval is. -/
theorem count_flashing_zero (flashes : Mat Int) (hz : ∀ i j, flashes.val i j = 0)
    (interval : Int) : count_flashing (flash_freq flashes interval) = 0 := by
  apply count_flashing_small
  intro i j
  have h0 : (flash_freq flashes interval).val i j = 0 := by
    simp only [flash_freq, pixel_freq, hz i j, Int.cast_zero, zero_mul]
    exact round_half_even_intCast 0
  rw [h0]
  norm_num

/-- The decision block prints nothing when the accumulator is a sum of fewer
than `2 ^ 23` grids of flags 0 or 1: every frequency entry is then a small
non-negative integer, which `at<float>` reads as a subnormal number. -/
theorem decide_flashing_false {h w : Nat} {s : MainState P} (hinv : Inv h w s)
    (hflags : ∀ g ∈ s.luminous_flash_buffer, ∀ i j, g.val i j = 0 ∨ g.val i j = 1)
    (hlen : s.luminous_flash_buffer.length < 2 ^ 23) (interval : Int) (ht : 1 ≤ interval)
    (threshold : Nat) (hthr : 1 ≤ threshold) :
    decide_flashing s interval threshold = false := by
  have hlum : count_flashing (flash_freq s.luminous_flashes interval) = 0 := by
    apply count_flashing_small
    intro i j
    have hb := sum_zero_one_bounds (s.luminous_flash_buffer.map fun g => g.val i j)
      (by
        intro v hv
        obtain ⟨g, hg, rfl⟩ := List.mem_map.1 hv
        exact hflags g hg i j)
    rw [← hinv.lum_sum i j, List.length_map] at hb
    have hp := pixel_freq_bounds (s.luminous_flashes.val i j) interval hb.1 ht
    have hl : (s.luminous_flash_buffer.length : Int) < 2 ^ 23 := by exact_mod_cast hlen
    exact ⟨hp.1, by simp only [flash_freq]; omega⟩
  have hred := count_flashing_zero s.red_flashes hinv.red_zero interval
  unfold decide_flashing flashing_detected
  rw [hlum, hred]
  simp only [ge_iff_le, Nat.le_zero_eq, or_self, decide_eq_false_iff_not]
  omega

/-! ### Runs of the loop -/

/-- A run on non-empty frames of the working resolution, started with fewer than
`2 ^ 23` frames in all, never prints a detection: it emits one `false` verdict
for each iteration in which the decision block runs. -/
theorem main_loop_never_detects (lum : P → α) {h w : Nat} (hh : 0 < h) (hw : 0 < w)
    (threshold : Nat) (hthr : 1 ≤ threshold) :
    ∀ (inputs : List (Mat P × Int)) (s : MainState P), Inv h w s →
      (∀ g ∈ s.luminous_flash_buffer, ∀ i j, g.val i j = 0 ∨ g.val i j = 1) →
      (∀ x ∈ inputs, x.1.rows = h ∧ x.1.cols = w) →
      s.luminous_flash_buffer.length + inputs.length < 2 ^ 23 →
      ∃ s1, main_loop lum threshold s inputs =
          some (s1, List.replicate (window_decisions s.time_buffer (inputs.map Prod.snd)) false) ∧
        Inv h w s1 := by
  intro inputs
  induction inputs with
  | nil =>
    intro s hs _ _ _
    exact ⟨s, rfl, hs⟩
  | cons x rest ih =>
    intro s hs hflags hdims hlen
    obtain ⟨frame, now⟩ := x
    have hd := hdims (frame, now) (List.mem_cons_self _ _)
    have hrest : ∀ y ∈ rest, y.1.rows = h ∧ y.1.cols = w :=
      fun y hy => hdims y (List.mem_cons_of_mem _ hy)
    have hne := not_empty_of_dims hh hw frame hd.1 hd.2
    simp only [List.length_cons] at hlen
    obtain ⟨s1, _, hinv1, hfb, htb, hlfb, _, hcase⟩ :=
      iteration_spec lum threshold hs frame now hd.1 hd.2 hne
    have hflags1 : ∀ g ∈ s1.luminous_flash_buffer, ∀ i j, g.val i j = 0 ∨ g.val i j = 1 := by
      intro g hg
      rw [hlfb, List.mem_append] at hg
      rcases hg with hg | hg
      · exact hflags g hg
      · cases hlast : s.frame_buffer.getLast? with
        | none => rw [hlast] at hg; simp at hg
        | some prev =>
          rw [hlast] at hg
          simp only [Option.map_some', Option.toList_some, List.mem_singleton] at hg
          rw [hg]
          intro i j
          exact flashing_flag_zero_or_one _ _
    have hlen1 : s1.luminous_flash_buffer.length ≤ s.luminous_flash_buffer.length + 1 := by
      rw [hlfb, List.length_append]
      cases s.frame_buffer.getLast? <;> simp
    have hcond : (s1.frame_buffer.length ≥ BUFFER_SIZE ∧ interval_of s1.time_buffer ≥ 1) ↔
        ((s.time_buffer ++ [now]).length ≥ BUFFER_SIZE ∧
          interval_of (s.time_buffer ++ [now]) ≥ 1) := by
      rw [← hinv1.time_len, htb]
    simp only [List.map_cons, window_decisions]
    rcases hcase with ⟨hc1, hc2, s2, hit, hinv2, _, e2, e3, _, _, _⟩ | ⟨hnc, hit⟩
    · rw [if_pos (hcond.1 ⟨hc1, hc2⟩)]
      have hverdict := decide_flashing_false hinv1 hflags1 (by omega)
        (interval_of s1.time_buffer) hc2 threshold hthr
      have hflags2 : ∀ g ∈ s2.luminous_flash_buffer, ∀ i j, g.val i j = 0 ∨ g.val i j = 1 := by
        intro g hg
        rw [e3] at hg
        exact hflags1 g (List.mem_of_mem_tail hg)
      have hlen2 : s2.luminous_flash_buffer.length + rest.length < 2 ^ 23 := by
        rw [e3, List.length_tail]
        omega
      obtain ⟨s3, hrun, hinv3⟩ := ih s2 hinv2 hflags2 hrest hlen2
      refine ⟨s3, ?_, hinv3⟩
      simp only [main_loop]
      rw [hit, hverdict]
      simp only [hrun]
      rw [e2, htb]
      simp [List.replicate_succ]
    · rw [if_neg (fun hx => hnc (hcond.2 hx))]
      obtain ⟨s3, hrun, hinv3⟩ := ih s1 hinv1 hflags1 hrest (by omega)
      refine ⟨s3, ?_, hinv3⟩
      simp only [main_loop]
      rw [hit]
      simp only [hrun]
      rw [htb]
      simp

/-- While the frame buffer holds fewer than 16 frames the loop only pushes: the
run emits no verdict, and its final buffers are the initial ones followed by
the incoming frames and clock values. -/
theorem main_loop_filling (lum : P → α) {h w : Nat} (hh : 0 < h) (hw : 0 < w)
    (threshold : Nat) :
    ∀ (inputs : List (Mat P × Int)) (s : MainState P), Inv h w s →
      (∀ x ∈ inputs, x.1.rows = h ∧ x.1.cols = w) →
      s.frame_buffer.length + inputs.length < BUFFER_SIZE →
      ∃ s1, main_loop lum threshold s inputs = some (s1, []) ∧ Inv h w s1 ∧
        s1.frame_buffer = s.frame_buffer ++ inputs.map Prod.fst ∧
        s1.time_buffer = s.time_buffer ++ inputs.map Prod.snd := by
  intro inputs
  induction inputs with
  | nil =>
    intro s hs _ _
    exact ⟨s, rfl, hs, by simp, by simp⟩
  | cons x rest ih =>
    intro s hs hdims hlen
    obtain ⟨frame, now⟩ := x
    have hd := hdims (frame, now) (List.mem_cons_self _ _)
    have hrest : ∀ y ∈ rest, y.1.rows = h ∧ y.1.cols = w :=
      fun y hy => hdims y (List.mem_cons_of_mem _ hy)
    have hne := not_empty_of_dims hh hw frame hd.1 hd.2
    simp only [List.length_cons] at hlen
    obtain ⟨s1, _, hinv1, hfb, htb, _, _, hcase⟩ :=
      iteration_spec lum threshold hs frame now hd.1 hd.2 hne
    have hlen1 : s1.frame_buffer.length = s.frame_buffer.length + 1 := by
      rw [hfb]; simp
    rcases hcase with ⟨hc1, _⟩ | ⟨_, hit⟩
    · omega
    · obtain ⟨s3, hrun, hinv3, e1, e2⟩ := ih s1 hinv1 hrest (by omega)
      refine ⟨s3, ?_, hinv3, ?_, ?_⟩
      · simp only [main_loop]
        rw [hit]
        simp only [hrun]
        simp
      · rw [e1, hfb]; simp
      · rw [e2, htb]; simp

/-- Every frame of an alternating stream has the given dimensions. -/
theorem alternating_stream_dims (h w : Nat) (a b : ℚ) (fps n : Nat) :
    ∀ x ∈ alternating_stream h w a b fps n, x.1.rows = h ∧ x.1.cols = w := by
  intro x hx
  unfold alternating_stream at hx
  obtain ⟨k, _, rfl⟩ := List.mem_map.1 hx
  exact ⟨rfl, rfl⟩

/-- Clock values of an alternating stream. -/
theorem alternating_stream_times (h w : Nat) (a b : ℚ) (fps n : Nat) :
    (alternating_stream h w a b fps n).map Prod.snd =
      (List.range n).map fun k => ((k / fps : Nat) : Int) := by
  simp [alternating_stream, List.map_map, Function.comp_def]

set_option maxRecDepth 100000 in
/-- With 32 frames at 8 frames per second the decision block runs in 17
iterations: from the 16th frame on. -/
theorem window_decisions_scenario :
    window_decisions [] ((List.range 32).map fun k => ((k / 8 : Nat) : Int)) = 17 := by
  decide

/-- Every frame of a region stream has the given dimensions. -/
theorem region_stream_dims (h w : Nat) (S : Nat → Nat → Bool) (a b : ℚ) (c : Nat → Nat → ℚ)
    (fps n : Nat) : ∀ x ∈ region_stream h w S a b c fps n, x.1.rows = h ∧ x.1.cols = w := by
  intro x hx
  unfold region_stream at hx
  obtain ⟨k, _, rfl⟩ := List.mem_map.1 hx
  exact ⟨rfl, rfl⟩

/-- Clock values of a region stream. -/
theorem region_stream_times (h w : Nat) (S : Nat → Nat → Bool) (a b : ℚ) (c : Nat → Nat → ℚ)
    (fps n : Nat) :
    (region_stream h w S a b c fps n).map Prod.snd =
      (List.range n).map fun k => ((k / fps : Nat) : Int) := by
  simp [region_stream, List.map_map, Function.comp_def]

/-- A run of `main` on 32 frames of 10 rows and 10 columns delivered at 8 frames
per second processes all of them and emits 17 verdicts, all `false`, whatever
the frames hold. -/
theorem scenario_timing_run (lum : P → α) (inputs : List (Mat P × Int))
    (hdims : ∀ x ∈ inputs, x.1.rows = 10 ∧ x.1.cols = 10)
    (htimes : inputs.map Prod.snd = (List.range 32).map fun k => ((k / 8 : Nat) : Int)) :
    ∃ s, main lum 10 10 inputs = some (s, List.replicate 17 false) := by
  have hlen : inputs.length = 32 := by
    have := congrArg List.length htimes
    simpa using this
  obtain ⟨s, hrun, _⟩ := main_loop_never_detects lum (by decide : 0 < 10)
    (by decide : 0 < 10) (quarter_area_threshold 10 10) (by decide)
    inputs (main_init P 10 10) (inv_init 10 10)
    (by intro g hg; simp [main_init] at hg)
    hdims
    (by rw [hlen]; simp [main_init])
  rw [htimes, show (main_init P 10 10).time_buffer = [] from rfl,
    window_decisions_scenario] at hrun
  exact ⟨s, hrun⟩

/-- Scenario A, the luminance grids holding 0 and the binary32 number nearest to
0.3 and being read with `at<int>`: the run processes the 32 frames and emits 17
verdicts, all `false`. -/
theorem scenario_A_run :
    ∃ s, main at_int 10 10 (alternating_stream 10 10 0 (float32_round (3 / 10)) 8 32) =
      some (s, List.replicate 17 false) :=
  scenario_timing_run at_int _ (alternating_stream_dims 10 10 0 (float32_round (3 / 10)) 8 32)
    (alternating_stream_times 10 10 0 (float32_round (3 / 10)) 8 32)

/-- The window after the first 15 frames of scenario A: the run emits no verdict
and ends in a reachable state that holds the 15 frames and their clock
values. -/
theorem filled_window :
    ∃ s, main at_int 10 10 (alternating_stream 10 10 0 (float32_round (3 / 10)) 8 15) = some (s, []) ∧
      Reachable at_int 10 10 s ∧ s.frame_buffer.length = 15 ∧
      s.time_buffer = [0, 0, 0, 0, 0, 0, 0, 0, 1, 1, 1, 1, 1, 1, 1] := by
  obtain ⟨s, hrun, _, hfb, htb⟩ := main_loop_filling at_int (by decide : 0 < 10)
    (by decide : 0 < 10) (quarter_area_threshold 10 10)
    (alternating_stream 10 10 0 (float32_round (3 / 10)) 8 15) (main_init ℚ 10 10) (inv_init 10 10)
    (alternating_stream_dims 10 10 0 (float32_round (3 / 10)) 8 15)
    (by simp [main_init, alternating_stream, BUFFER_SIZE])
  refine ⟨s, hrun, ?_, ?_, ?_⟩
  · exact main_loop_reachable at_int _ _ Reachable.init
      (alternating_stream_dims 10 10 0 (float32_round (3 / 10)) 8 15) s _ hrun
  · rw [hfb]
    simp [main_init, alternating_stream]
  · rw [htb, alternating_stream_times]
    rfl

/-- The 16th frame of scenario A, stamped 1, on the window of the first 15: the
accumulation succeeds, the guard of line 91 holds, and the iteration runs the
decision block and evicts. -/
theorem filled_window_step {s : MainState ℚ} (hs : Reachable at_int 10 10 s)
    (hlen : s.frame_buffer.length = 15)
    (htb : s.time_buffer = [0, 0, 0, 0, 0, 0, 0, 0, 1, 1, 1, 1, 1, 1, 1]) :
    ∃ s1 s2 verdict,
      accumulate at_int ⟨s.frame_buffer ++ [uniform_grid 10 10 (float32_round (3 / 10))],
        s.time_buffer ++ [1], s.luminous_flash_buffer, s.red_flash_buffer, s.luminous_flashes,
        s.red_flashes⟩ = Except.ok s1 ∧
      (s1.frame_buffer.length ≥ BUFFER_SIZE ∧ interval_of s1.time_buffer ≥ 1) ∧
      main_iteration at_int (quarter_area_threshold 10 10) s
        (uniform_grid 10 10 (float32_round (3 / 10))) 1 = Outcome.next s2 (some verdict) := by
  obtain ⟨s1, hacc, _, hfb, htb1, _, _, hcase⟩ :=
    iteration_spec at_int (quarter_area_threshold 10 10) (reachable_inv _ hs)
      (uniform_grid 10 10 (float32_round (3 / 10))) 1 rfl rfl rfl
  have hcond : s1.frame_buffer.length ≥ BUFFER_SIZE ∧ interval_of s1.time_buffer ≥ 1 := by
    rw [hfb, htb1, htb]
    constructor
    · simp [hlen, BUFFER_SIZE]
    · decide
  rcases hcase with ⟨_, _, s2, hit, _⟩ | ⟨hnc, _⟩
  · exact ⟨s1, s2, _, hacc, hcond, hit⟩
  · exact absurd hcond hnc

/-! ### Accumulator invariant, area threshold and symmetry -/

/-- Claim C2. In every state reachable from the initial state by loop iterations,
the luminance accumulator equals, at every pixel, the sum of the flag grids held
in `luminous_flash_buffer`; both have the working resolution. -/
theorem accumulator_invariant (lum : P → α) {h w : Nat} {s : MainState P}
    (hs : Reachable lum h w s) :
    s.luminous_flashes.rows = h ∧ s.luminous_flashes.cols = w ∧
    (∀ g ∈ s.luminous_flash_buffer, g.rows = h ∧ g.cols = w) ∧
    ∀ i j, s.luminous_flashes.val i j =
      (s.luminous_flash_buffer.map fun g => g.val i j).sum :=
  have hinv := reachable_inv lum hs
  ⟨hinv.lum_rows, hinv.lum_cols, hinv.flag_dims, hinv.lum_sum⟩

/-- Witness for C2: the state reached at the end of scenario A, after 32
pushes and 17 evictions. -/
theorem accumulator_invariant_witness :
    ∃ s, main at_int 10 10 (alternating_stream 10 10 0 (float32_round (3 / 10)) 8 32) =
        some (s, List.replicate 17 false) ∧
      ∀ i j, s.luminous_flashes.val i j =
        (s.luminous_flash_buffer.map fun g => g.val i j).sum := by
  obtain ⟨s, hrun⟩ := scenario_A_run
  exact ⟨s, hrun, (accumulator_invariant at_int
    (main_loop_reachable at_int _ _ Reachable.init
      (alternating_stream_dims 10 10 _ _ 8 32) s _ hrun)).2.2.2⟩

/-- Claim C3 as stated fails: with a 5 x 1 frame the threshold is 1, so one
qualifying pixel gives a true verdict although 4 * 1 < 5; with a 1 x 1 frame the
threshold is 0 and the verdict is true with no qualifying pixel. -/
theorem quarter_area_counterexample :
    ¬ (∀ frame_width frame_height luminous_count red_count : Nat,
        flashing_detected luminous_count red_count
            (quarter_area_threshold frame_width frame_height) = true ↔
          (4 * luminous_count ≥ frame_width * frame_height ∨
            4 * red_count ≥ frame_width * frame_height)) := by
  intro hall
  have h := (hall 5 1 1 0).1 (by decide)
  revert h
  decide

/-- Claim C3, amended. The verdict is true exactly when the luminance count or
the red count reaches the integer quotient of the frame area by 4; when the area
is a multiple of 4 this is the same as `4 * count >= width * height`. -/
theorem quarter_area_verdict (frame_width frame_height luminous_count red_count : Nat) :
    (flashing_detected luminous_count red_count
        (quarter_area_threshold frame_width frame_height) = true ↔
      (luminous_count ≥ frame_width * frame_height / 4 ∨
        red_count ≥ frame_width * frame_height / 4)) ∧
    (4 ∣ frame_width * frame_height →
      (flashing_detected luminous_count red_count
          (quarter_area_threshold frame_width frame_height) = true ↔
        (4 * luminous_count ≥ frame_width * frame_height ∨
          4 * red_count ≥ frame_width * frame_height))) := by
  have hmain : flashing_detected luminous_count red_count
        (quarter_area_threshold frame_width frame_height) = true ↔
      (luminous_count ≥ frame_width * frame_height / 4 ∨
        red_count ≥ frame_width * frame_height / 4) := by
    simp [flashing_detected, quarter_area_threshold]
  refine ⟨hmain, ?_⟩
  intro hdvd
  rw [hmain]
  obtain ⟨k, hk⟩ := hdvd
  rw [hk]
  constructor
  · rintro (h | h)
    · left; omega
    · right; omega
  · rintro (h | h)
    · left; omega
    · right; omega

/-- Witness for C3 (amended) on a 10 x 10 frame with 25 qualifying pixels. -/
theorem quarter_area_verdict_witness :
    flashing_detected 25 0 (quarter_area_threshold 10 10) = true ↔
      (4 * 25 ≥ 10 * 10 ∨ 4 * 0 ≥ 10 * 10) :=
  (quarter_area_verdict 10 10 25 0).2 (by decide)

/-- Claim C6. `is_luminance_flash` is symmetric: on grids of identical
dimensions, swapping the two arguments gives the identical flag grid. -/
theorem is_luminance_flash_symm (a b : Mat α) (hrows : a.rows = b.rows)
    (hcols : a.cols = b.cols) : is_luminance_flash a b = is_luminance_flash b a := by
  unfold is_luminance_flash
  rw [hrows, hcols]
  congr 1
  funext i j
  rcases lt_trichotomy (a.val i j) (b.val i j) with h | h | h
  · simp [brighter_ls, darker_ls, h, not_lt.2 (le_of_lt h)]
  · simp [brighter_ls, darker_ls, h]
  · simp [brighter_ls, darker_ls, h, not_lt.2 (le_of_lt h)]

/-- Witness for C6 on two 2 x 3 grids of rationals. -/
theorem is_luminance_flash_symm_witness :
    is_luminance_flash (⟨2, 3, fun i j => (i + j : ℚ) / 10⟩ : Mat ℚ) ⟨2, 3, fun _ _ => 1 / 2⟩ =
      is_luminance_flash (⟨2, 3, fun _ _ => 1 / 2⟩ : Mat ℚ) ⟨2, 3, fun i j => (i + j : ℚ) / 10⟩ :=
  is_luminance_flash_symm _ _ rfl rfl

/-! ### The saturated red path -/

/-- Claim C13. The red classifier flags no pixel for any pair of frames; in every
reachable state, and in the state on which the decision block works, the red
accumulator is zero at every pixel and the number of red-qualifying pixels is
0. -/
theorem red_path_always_zero (lum : P → α) {h w : Nat} {s : MainState P}
    (hs : Reachable lum h w s) :
    (∀ (color prev_color : Mat P) (i j : Nat),
      (saturated_red_flash_count color prev_color).val i j = 0) ∧
    (∀ i j, s.red_flashes.val i j = 0) ∧
    (∀ interval : Int, count_flashing (flash_freq s.red_flashes interval) = 0) ∧
    (∀ (frame : Mat P) (now : Int) (s1 : MainState P), frame.rows = h → frame.cols = w →
      accumulate lum ⟨s.frame_buffer ++ [frame], s.time_buffer ++ [now],
        s.luminous_flash_buffer, s.red_flash_buffer, s.luminous_flashes, s.red_flashes⟩
          = Except.ok s1 →
      (∀ i j, s1.red_flashes.val i j = 0) ∧
      ∀ interval : Int, count_flashing (flash_freq s1.red_flashes interval) = 0) := by
  have hinv := reachable_inv lum hs
  refine ⟨fun _ _ _ _ => rfl, hinv.red_zero, count_flashing_zero _ hinv.red_zero, ?_⟩
  intro frame now s1 hr hc hacc
  obtain ⟨s1', hacc', hinv1, _⟩ := accumulate_spec lum hinv frame now hr hc
  rw [hacc'] at hacc
  cases hacc
  exact ⟨hinv1.red_zero, count_flashing_zero _ hinv1.red_zero⟩

/-- Witness for C13: the state reached at the end of scenario A. -/
theorem red_path_always_zero_witness :
    ∃ s, main at_int 10 10 (alternating_stream 10 10 0 (float32_round (3 / 10)) 8 32) =
        some (s, List.replicate 17 false) ∧
      (∀ i j, s.red_flashes.val i j = 0) ∧
      count_flashing (flash_freq s.red_flashes 1) = 0 := by
  obtain ⟨s, hrun⟩ := scenario_A_run
  have h := red_path_always_zero at_int
    (main_loop_reachable at_int _ _ Reachable.init
      (alternating_stream_dims 10 10 _ _ 8 32) s _ hrun)
  exact ⟨s, hrun, h.2.1, h.2.2.1 1⟩

/-- Claim C14 evaluated on the code: for two linear frames of 10 rows and 10
columns `is_saturated_red_flash` returns a grid of 1 row and 1 column (one
entry, equal to 0), not a grid of 10 rows and 10 columns, whereas
`is_luminance_flash` returns a grid of the size of its argument; the red result
has 1 row and 1 column for frames of any size. -/
theorem is_saturated_red_flash_shape :
    (is_saturated_red_flash (⟨10, 10, fun _ _ => (1, 0, 0)⟩ : Mat (ℚ × ℚ × ℚ))
      (⟨10, 10, fun _ _ => (0, 0, 0)⟩ : Mat (ℚ × ℚ × ℚ))).rows = 1 ∧
    (is_saturated_red_flash (⟨10, 10, fun _ _ => (1, 0, 0)⟩ : Mat (ℚ × ℚ × ℚ))
      (⟨10, 10, fun _ _ => (0, 0, 0)⟩ : Mat (ℚ × ℚ × ℚ))).cols = 1 ∧
    (is_saturated_red_flash (⟨10, 10, fun _ _ => (1, 0, 0)⟩ : Mat (ℚ × ℚ × ℚ))
      (⟨10, 10, fun _ _ => (0, 0, 0)⟩ : Mat (ℚ × ℚ × ℚ))).rows ≠ 10 ∧
    (is_saturated_red_flash (⟨10, 10, fun _ _ => (1, 0, 0)⟩ : Mat (ℚ × ℚ × ℚ))
      (⟨10, 10, fun _ _ => (0, 0, 0)⟩ : Mat (ℚ × ℚ × ℚ))).val 0 0 = 0 ∧
    (is_luminance_flash (uniform_grid 10 10 0) (uniform_grid 10 10 0)).rows = 10 ∧
    (is_luminance_flash (uniform_grid 10 10 0) (uniform_grid 10 10 0)).cols = 10 ∧
    ∀ (L : Type) (linear_color prev_linear_color : Mat L),
      (is_saturated_red_flash linear_color prev_linear_color).rows = 1 ∧
      (is_saturated_red_flash linear_color prev_linear_color).cols = 1 :=
  ⟨rfl, rfl, by decide, rfl, rfl, rfl, fun _ _ _ => ⟨rfl, rfl⟩⟩

/-! ### Frames that are empty or of another size -/

/-- The state carried by a failed step. -/
theorem state_of_error {σ : Type} {e s1 : σ}
    (h : (Except.error e : Except σ σ) = Except.ok s1 ∨
      (Except.error e : Except σ σ) = Except.error s1) : s1 = e := by
  rcases h with h | h
  · cases h
  · cases h; rfl

/-- The state carried by a successful step. -/
theorem state_of_ok {σ : Type} {e s1 : σ}
    (h : (Except.ok e : Except σ σ) = Except.ok s1 ∨
      (Except.ok e : Except σ σ) = Except.error s1) : s1 = e := by
  rcases h with h | h
  · cases h; rfl
  · cases h

/-- Lines 76-87 never touch the frame and time buffers, whether they succeed or
fail. -/
theorem accumulate_buffers (lum : P → α) (s : MainState P) :
    ∀ r, accumulate lum s = r →
      ∀ s1, (r = Except.ok s1 ∨ r = Except.error s1) →
        s1.frame_buffer = s.frame_buffer ∧ s1.time_buffer = s.time_buffer := by
  intro r hr s1 h
  unfold accumulate at hr
  split at hr
  · split at hr
    · simp only at hr
      split at hr
      · subst hr
        rw [state_of_error h]
        exact ⟨rfl, rfl⟩
      · split at hr
        · subst hr
          rw [state_of_error h]
          exact ⟨rfl, rfl⟩
        · subst hr
          rw [state_of_ok h]
          exact ⟨rfl, rfl⟩
    · subst hr
      rw [state_of_error h]
      exact ⟨rfl, rfl⟩
  · subst hr
    rw [state_of_ok h]
    exact ⟨rfl, rfl⟩

/-- Lines 121-128 drop the head of the frame and time buffers, whether the
subtractions succeed or fail. -/
theorem evict_buffers (s : MainState P) :
    ∀ r, evict s = r →
      ∀ s1, (r = Except.ok s1 ∨ r = Except.error s1) →
        s1.frame_buffer = s.frame_buffer.tail ∧ s1.time_buffer = s.time_buffer.tail := by
  intro r hr s1 h
  unfold evict at hr
  simp only at hr
  split at hr
  · subst hr
    rw [state_of_error h]
    exact ⟨rfl, rfl⟩
  · split at hr
    · subst hr
      rw [state_of_error h]
      exact ⟨rfl, rfl⟩
    · split at hr
      · subst hr
        rw [state_of_error h]
        exact ⟨rfl, rfl⟩
      · split at hr
        · subst hr
          rw [state_of_error h]
          exact ⟨rfl, rfl⟩
        · subst hr
          rw [state_of_ok h]
          exact ⟨rfl, rfl⟩

/-- An iteration on a non-empty frame never takes the `break`, and in the state
it ends with (normally or by a failure) the frame and the clock value have been
pushed: the two buffers are the pushed ones, or the pushed ones without their
head when the decision block ran. -/
theorem iteration_pushes (lum : P → α) (threshold : Nat) (s : MainState P) (frame : Mat P)
    (now : Int) (hne : frame.empty = false) :
    ∃ s1 verdict,
      (main_iteration lum threshold s frame now = Outcome.next s1 verdict ∨
        main_iteration lum threshold s frame now = Outcome.failed s1 verdict) ∧
      ((s1.frame_buffer = s.frame_buffer ++ [frame] ∧
          s1.time_buffer = s.time_buffer ++ [now]) ∨
        (s1.frame_buffer = (s.frame_buffer ++ [frame]).tail ∧
          s1.time_buffer = (s.time_buffer ++ [now]).tail)) := by
  unfold main_iteration
  rw [hne]
  simp only [Bool.false_eq_true, if_false]
  cases hacc : accumulate lum ⟨s.frame_buffer ++ [frame], s.time_buffer ++ [now],
      s.luminous_flash_buffer, s.red_flash_buffer, s.luminous_flashes, s.red_flashes⟩ with
  | error e =>
    have hb := accumulate_buffers lum _ _ hacc e (Or.inr rfl)
    exact ⟨e, none, Or.inr rfl, Or.inl hb⟩
  | ok s1 =>
    have hb := accumulate_buffers lum _ _ hacc s1 (Or.inl rfl)
    simp only at hb ⊢
    by_cases hcond : s1.frame_buffer.length ≥ BUFFER_SIZE ∧ interval_of s1.time_buffer ≥ 1
    · rw [if_pos hcond]
      cases hev : evict s1 with
      | error e =>
        have he := evict_buffers _ _ hev e (Or.inr rfl)
        rw [hb.1, hb.2] at he
        exact ⟨e, _, Or.inr rfl, Or.inr he⟩
      | ok s2 =>
        have he := evict_buffers _ _ hev s2 (Or.inl rfl)
        rw [hb.1, hb.2] at he
        exact ⟨s2, _, Or.inl rfl, Or.inr he⟩
    · rw [if_neg hcond]
      exact ⟨s1, none, Or.inl rfl, Or.inl hb⟩

/-- A second frame of another size: the iteration pushes the frame, the clock
value and the flag grid, and then fails at the addition of line 84. -/
theorem mismatched_second_frame_fails :
    main_iteration (fun x : ℚ => x) (quarter_area_threshold 2 2)
        ⟨[uniform_grid 2 2 0], [0], [], [], zeros 2 2, zeros 2 2⟩ (uniform_grid 3 3 0) 0 =
      Outcome.failed
        ⟨[uniform_grid 2 2 0, uniform_grid 3 3 0], [0, 0],
          [luminance_flash_count (fun x : ℚ => x) (uniform_grid 3 3 0) (uniform_grid 2 2 0)],
          [], zeros 2 2, zeros 2 2⟩ none :=
  rfl

/-- Claim C15 as stated fails: with a working resolution of 2 x 2, a first frame
of 3 x 3 is processed like any other frame, without any error: it is pushed
onto the frame buffer and its clock value onto the time buffer. -/
theorem frame_shape_counterexample :
    ¬ (∀ (h w : Nat) (s s1 : MainState ℚ) (frame : Mat ℚ) (now : Int) (v : Option Bool),
        Reachable (fun x : ℚ => x) h w s →
        (frame.empty = true ∨ frame.rows ≠ h ∨ frame.cols ≠ w) →
        (main_iteration (fun x : ℚ => x) (quarter_area_threshold w h) s frame now =
            Outcome.next s1 v ∨
          main_iteration (fun x : ℚ => x) (quarter_area_threshold w h) s frame now =
            Outcome.failed s1 v ∨
          main_iteration (fun x : ℚ => x) (quarter_area_threshold w h) s frame now =
            Outcome.stopped s1) →
        s1.frame_buffer = s.frame_buffer ∧ s1.time_buffer = s.time_buffer) := by
  intro hall
  have h := hall 2 2 (main_init ℚ 2 2)
    ⟨[uniform_grid 3 3 0], [0], [], [], zeros 2 2, zeros 2 2⟩ (uniform_grid 3 3 0) 0 none
    Reachable.init (Or.inr (Or.inl (by decide))) (Or.inl rfl)
  have h1 := h.2
  simp [main_init] at h1

/-- Claim C15, amended. An empty frame makes the loop stop at line 66 with both
accumulators and all buffers unchanged, and no later frame is processed; frame
dimensions are not checked: every non-empty frame and its clock value are
pushed onto the frame and time buffers, whether the iteration then runs to its
end or fails. -/
theorem empty_frame_stops (lum : P → α) (threshold : Nat) (s : MainState P) (frame : Mat P)
    (now : Int) (he : frame.empty = true) :
    main_iteration lum threshold s frame now = Outcome.stopped s ∧
    (∀ rest, main_loop lum threshold s ((frame, now) :: rest) = some (s, [])) ∧
    ∀ (frame2 : Mat P) (now2 : Int), frame2.empty = false →
      ∃ s1 verdict,
        (main_iteration lum threshold s frame2 now2 = Outcome.next s1 verdict ∨
          main_iteration lum threshold s frame2 now2 = Outcome.failed s1 verdict) ∧
        ((s1.frame_buffer = s.frame_buffer ++ [frame2] ∧
            s1.time_buffer = s.time_buffer ++ [now2]) ∨
          (s1.frame_buffer = (s.frame_buffer ++ [frame2]).tail ∧
            s1.time_buffer = (s.time_buffer ++ [now2]).tail)) := by
  have hstop : main_iteration lum threshold s frame now = Outcome.stopped s := by
    simp [main_iteration, he]
  refine ⟨hstop, ?_, fun frame2 now2 hne => iteration_pushes lum threshold s frame2 now2 hne⟩
  intro rest
  simp only [main_loop, hstop]

/-- Witness for C15 (amended): an empty frame arriving in the initial state. -/
theorem empty_frame_stops_witness :
    main_iteration (fun x : ℚ => x) (quarter_area_threshold 10 10) (main_init ℚ 10 10)
      (uniform_grid 0 0 0) 0 = Outcome.stopped (main_init ℚ 10 10) :=
  (empty_frame_stops (fun x : ℚ => x) (quarter_area_threshold 10 10) (main_init ℚ 10 10)
    (uniform_grid 0 0 0) 0 rfl).1

/-! ### Timestamps of the window -/

/-- After an iteration that runs to its end the time buffer is the pushed one, or
the pushed one without its head. -/
theorem iteration_time_buffer (lum : P → α) (threshold : Nat) {s s1 : MainState P}
    {frame : Mat P} {now : Int} {verdict : Option Bool}
    (hstep : main_iteration lum threshold s frame now = Outcome.next s1 verdict) :
    s1.time_buffer = s.time_buffer ++ [now] ∨
      s1.time_buffer = (s.time_buffer ++ [now]).tail := by
  have hne := iteration_next_nonempty lum threshold hstep
  obtain ⟨s2, v, hout, hbuf⟩ := iteration_pushes lum threshold s frame now hne
  have hs : s2 = s1 := by
    rcases hout with h | h
    · rw [h] at hstep; cases hstep; rfl
    · rw [h] at hstep; cases hstep
  rw [← hs]
  rcases hbuf with h | h
  · exact Or.inl h.2
  · exact Or.inr h.2

/-- With non-decreasing clock values, the time buffer at the end of a run,
followed by any later clock values, is non-decreasing. -/
theorem main_loop_time_sorted (lum : P → α) (threshold : Nat) :
    ∀ (inputs : List (Mat P × Int)) (s : MainState P) (later : List Int),
      List.Sorted (· ≤ ·) (s.time_buffer ++ (inputs.map Prod.snd ++ later)) →
      ∀ s1 verdicts, main_loop lum threshold s inputs = some (s1, verdicts) →
        List.Sorted (· ≤ ·) (s1.time_buffer ++ later) := by
  intro inputs
  induction inputs with
  | nil =>
    intro s later hsorted s1 vs hrun
    simp only [main_loop, Option.some.injEq, Prod.mk.injEq] at hrun
    rw [← hrun.1]
    simpa using hsorted
  | cons x rest ih =>
    intro s later hsorted s1 vs hrun
    obtain ⟨frame, now⟩ := x
    simp only [main_loop] at hrun
    cases hit : main_iteration lum threshold s frame now with
    | next s2 v =>
      rw [hit] at hrun
      simp only at hrun
      cases hrest : main_loop lum threshold s2 rest with
      | none => rw [hrest] at hrun; cases hrun
      | some r =>
        obtain ⟨s3, vs3⟩ := r
        rw [hrest] at hrun
        simp only [Option.some.injEq, Prod.mk.injEq] at hrun
        rw [← hrun.1]
        refine ih s2 later ?_ s3 vs3 hrest
        have hfull : List.Sorted (· ≤ ·)
            ((s.time_buffer ++ [now]) ++ (rest.map Prod.snd ++ later)) := by
          simpa using hsorted
        rcases iteration_time_buffer lum threshold hit with h | h
        · rw [h]; exact hfull
        · rw [h]
          exact List.Pairwise.sublist
            (List.Sublist.append_right (List.tail_sublist _) _) hfull
    | stopped s2 =>
      rw [hit] at hrun
      simp only [Option.some.injEq, Prod.mk.injEq] at hrun
      rw [← hrun.1, iteration_stopped_state lum _ hit]
      refine List.Pairwise.sublist ?_ hsorted
      exact List.Sublist.append_left
        (List.Sublist.trans (List.sublist_append_right _ _) (List.sublist_cons_self _ _)) _
    | failed s2 v =>
      rw [hit] at hrun
      cases hrun

/-- The interval of line 89 is not negative when the pushed time buffer is
non-decreasing. -/
theorem interval_nonneg_of_sorted (time_buffer : List Int) (now : Int)
    (hsorted : List.Sorted (· ≤ ·) (time_buffer ++ [now])) :
    0 ≤ interval_of (time_buffer ++ [now]) := by
  rw [interval_of_append]
  cases time_buffer with
  | nil => simp
  | cons t rest =>
    have hle : t ≤ now := by
      have hs : List.Sorted (· ≤ ·) (t :: (rest ++ [now])) := hsorted
      exact List.rel_of_sorted_cons hs now (by simp)
    simp only [List.cons_append, List.headD_cons]
    omega

/-- Claim C17. If the clock values of the processed frames and of the next frame
are non-decreasing, then the time buffer of the state reached by the loop is
non-decreasing from front to back, it stays so when the next clock value is
pushed, and the interval computed in the next iteration is at least 0. -/
theorem time_buffer_nondecreasing (lum : P → α) (h w : Nat) (inputs : List (Mat P × Int))
    (frame : Mat P) (now : Int) (s : MainState P) (verdicts : List Bool)
    (hsorted : List.Sorted (· ≤ ·) ((inputs ++ [(frame, now)]).map Prod.snd))
    (hrun : main lum h w inputs = some (s, verdicts)) :
    List.Sorted (· ≤ ·) s.time_buffer ∧
    List.Sorted (· ≤ ·) (s.time_buffer ++ [now]) ∧
    0 ≤ interval_of (s.time_buffer ++ [now]) := by
  have hpush : List.Sorted (· ≤ ·) (s.time_buffer ++ [now]) := by
    refine main_loop_time_sorted lum _ inputs (main_init P h w) [now] ?_ s verdicts hrun
    simpa [main_init] using hsorted
  refine ⟨?_, hpush, interval_nonneg_of_sorted _ _ hpush⟩
  exact List.Pairwise.sublist (List.sublist_append_left _ _) hpush

set_option maxRecDepth 100000 in
/-- The clock values of scenario A, followed by the value 4, are non-decreasing. -/
theorem scenario_A_times_sorted :
    List.Sorted (· ≤ ·)
      ((alternating_stream 10 10 0 (float32_round (3 / 10)) 8 32 ++ [(uniform_grid 10 10 0, 4)]).map
        Prod.snd) := by
  decide

/-- Witness for C17: the state reached at the end of scenario A and a next frame
stamped 4. -/
theorem time_buffer_nondecreasing_witness :
    ∃ s, main at_int 10 10 (alternating_stream 10 10 0 (float32_round (3 / 10)) 8 32) =
        some (s, List.replicate 17 false) ∧
      List.Sorted (· ≤ ·) s.time_buffer ∧ 0 ≤ interval_of (s.time_buffer ++ [4]) := by
  obtain ⟨s, hrun⟩ := scenario_A_run
  have h := time_buffer_nondecreasing at_int 10 10
    (alternating_stream 10 10 0 (float32_round (3 / 10)) 8 32) (uniform_grid 10 10 0) 4 s _
    scenario_A_times_sorted hrun
  exact ⟨s, hrun, h.1, h.2.2⟩

/-! ### Alignment of the flag buffers with the frame buffer -/

/-- Pairing a buffer with its tail after a push: one more pair, formed by the
former last entry and the pushed one. -/
theorem zipWith_tail_concat {β γ : Type} (f : β → β → γ) (x : β) :
    ∀ l : List β, List.zipWith f (l ++ [x]) (l ++ [x]).tail =
      List.zipWith f l l.tail ++ (l.getLast?.map fun p => f p x).toList := by
  intro l
  induction l with
  | nil => simp
  | cons a l1 ih =>
    cases l1 with
    | nil => simp
    | cons b l2 =>
      have ih1 := ih
      simp only [List.cons_append, List.tail_cons, List.zipWith_cons_cons] at ih1 ⊢
      rw [ih1]
      simp [List.getLast?_cons_cons]

/-- Pairing a buffer with its tail after a pop: the first pair is dropped. -/
theorem zipWith_tail_tail {β γ : Type} (f : β → β → γ) (l : List β) :
    List.zipWith f l.tail l.tail.tail = (List.zipWith f l l.tail).tail := by
  cases l with
  | nil => simp
  | cons a l1 =>
    cases l1 with
    | nil => simp
    | cons b l2 => simp

/-- In every reachable state the two flag buffers hold the flag grids of the
consecutive pairs of the frame buffer, in order. -/
theorem reachable_aligned (lum : P → α) {h w : Nat} {s : MainState P}
    (hs : Reachable lum h w s) :
    s.luminous_flash_buffer = consecutive_flags lum s.frame_buffer ∧
    s.red_flash_buffer = consecutive_red_flags s.frame_buffer := by
  induction hs with
  | init => exact ⟨rfl, rfl⟩
  | step hprev hr hc hstep ih =>
    rename_i s0 s1 frame now verdict
    have hinv := reachable_inv lum hprev
    have hne := iteration_next_nonempty lum _ hstep
    obtain ⟨sa, _, _, hfb, _, hlfb, hrfb, hcase⟩ :=
      iteration_spec lum (quarter_area_threshold w h) hinv frame now hr hc hne
    have ha1 : sa.luminous_flash_buffer = consecutive_flags lum sa.frame_buffer := by
      rw [hlfb, hfb, ih.1]
      unfold consecutive_flags
      rw [zipWith_tail_concat]
    have ha2 : sa.red_flash_buffer = consecutive_red_flags sa.frame_buffer := by
      rw [hrfb, hfb, ih.2]
      unfold consecutive_red_flags
      rw [zipWith_tail_concat]
      rfl
    rcases hcase with ⟨_, _, s2, hit, _, e1, _, e3, e4, _, _⟩ | ⟨_, hit⟩
    · rw [hit] at hstep
      cases hstep
      constructor
      · rw [e3, e1, ha1]
        unfold consecutive_flags
        rw [zipWith_tail_tail]
      · rw [e4, e1, ha2]
        unfold consecutive_red_flags
        rw [zipWith_tail_tail]
    · rw [hit] at hstep
      cases hstep
      exact ⟨ha1, ha2⟩

/-- Claim C18. In every reachable state (the start and the end of an iteration)
the time buffer is as long as the frame buffer and each flag buffer has
`max (|frame_buffer| - 1) 0` entries, entry `k` being the flag grid computed
between frames `k` and `k + 1`; hence, when an iteration evicts, the flag grid
dropped with the oldest frame is the one computed between the oldest and the
second-oldest buffered frame. -/
theorem buffer_alignment (lum : P → α) {h w : Nat} {s : MainState P}
    (hs : Reachable lum h w s) :
    s.time_buffer.length = s.frame_buffer.length ∧
    (s.luminous_flash_buffer.length : Int) = max ((s.frame_buffer.length : Int) - 1) 0 ∧
    (s.red_flash_buffer.length : Int) = max ((s.frame_buffer.length : Int) - 1) 0 ∧
    s.luminous_flash_buffer = consecutive_flags lum s.frame_buffer ∧
    s.red_flash_buffer = consecutive_red_flags s.frame_buffer ∧
    ∀ (frame : Mat P) (now : Int) (s2 : MainState P) (verdict : Bool),
      frame.rows = h → frame.cols = w →
      main_iteration lum (quarter_area_threshold w h) s frame now =
        Outcome.next s2 (some verdict) →
      ∃ oldest second rest,
        s.frame_buffer ++ [frame] = oldest :: second :: rest ∧
        s2.frame_buffer = second :: rest ∧
        s.luminous_flash_buffer ++
            (s.frame_buffer.getLast?.map fun prev => luminance_flash_count lum frame prev).toList
          = luminance_flash_count lum second oldest :: s2.luminous_flash_buffer ∧
        s.red_flash_buffer ++
            (s.frame_buffer.getLast?.map fun prev => saturated_red_flash_count frame prev).toList
          = saturated_red_flash_count second oldest :: s2.red_flash_buffer := by
  have hinv := reachable_inv lum hs
  have hal := reachable_aligned lum hs
  refine ⟨hinv.time_len, ?_, ?_, hal.1, hal.2, ?_⟩
  · rw [hinv.lum_len]; omega
  · rw [hinv.red_len]; omega
  · intro frame now s2 verdict hr hc hstep
    have hne := iteration_next_nonempty lum _ hstep
    obtain ⟨s1, _, _, hfb, _, hlfb, hrfb, hcase⟩ :=
      iteration_spec lum (quarter_area_threshold w h) hinv frame now hr hc hne
    have hred : (s.frame_buffer.getLast?.map fun prev => saturated_red_flash_count frame prev) =
        (s.frame_buffer.getLast?.map fun _ => zeros 1 1) := rfl
    rw [hred, ← hlfb, ← hrfb]
    have ha1 : s1.luminous_flash_buffer = consecutive_flags lum s1.frame_buffer := by
      rw [hlfb, hfb, hal.1]
      unfold consecutive_flags
      rw [zipWith_tail_concat]
    have ha2 : s1.red_flash_buffer = consecutive_red_flags s1.frame_buffer := by
      rw [hrfb, hfb, hal.2]
      unfold consecutive_red_flags
      rw [zipWith_tail_concat]
      rfl
    rcases hcase with ⟨hc1, _, s3, hit, _, e1, _, e3, e4, _, _⟩ | ⟨_, hit⟩
    · rw [hit] at hstep
      cases hstep
      rw [← hfb]
      have hlen : 16 ≤ s1.frame_buffer.length := hc1
      cases hl : s1.frame_buffer with
      | nil => rw [hl] at hlen; simp at hlen
      | cons oldest l1 =>
        cases l1 with
        | nil => rw [hl] at hlen; simp at hlen
        | cons second rest =>
          refine ⟨oldest, second, rest, rfl, ?_, ?_, ?_⟩
          · rw [e1, hl]; rfl
          · rw [e3, ha1, hl]; rfl
          · rw [e4, ha2, hl]; rfl
    · rw [hit] at hstep
      cases hstep

/-- Witness for C18: the state reached at the end of scenario A. -/
theorem buffer_alignment_witness :
    ∃ s, main at_int 10 10 (alternating_stream 10 10 0 (float32_round (3 / 10)) 8 32) =
        some (s, List.replicate 17 false) ∧
      s.time_buffer.length = s.frame_buffer.length ∧
      s.luminous_flash_buffer = consecutive_flags at_int s.frame_buffer := by
  obtain ⟨s, hrun⟩ := scenario_A_run
  have h := buffer_alignment at_int
    (main_loop_reachable at_int _ _ Reachable.init
      (alternating_stream_dims 10 10 _ _ 8 32) s _ hrun)
  exact ⟨s, hrun, h.1, h.2.2.2.1⟩

/-! ### Bounds of the accumulator -/

/-- A property of all values of `f` holds for all entries of a `zipWith f`. -/
theorem forall_mem_zipWith {β γ δ : Type} (f : β → γ → δ) (Q : δ → Prop)
    (hQ : ∀ a b, Q (f a b)) : ∀ (l1 : List β) (l2 : List γ), ∀ d ∈ List.zipWith f l1 l2, Q d := by
  intro l1
  induction l1 with
  | nil => intro l2 d hd; simp at hd
  | cons a l1 ih =>
    intro l2 d hd
    cases l2 with
    | nil => simp at hd
    | cons b l2 =>
      simp only [List.zipWith_cons_cons, List.mem_cons] at hd
      rcases hd with hd | hd
      · rw [hd]; exact hQ a b
      · exact ih l2 d hd

/-- In every reachable state the accumulator lies between 0 and the number of
buffered flag grids, and every buffered flag is 0 or 1. -/
theorem reachable_bounds (lum : P → α) {h w : Nat} {s : MainState P}
    (hs : Reachable lum h w s) :
    (∀ g ∈ s.luminous_flash_buffer, ∀ i j, g.val i j = 0 ∨ g.val i j = 1) ∧
    ∀ i j, 0 ≤ s.luminous_flashes.val i j ∧
      s.luminous_flashes.val i j ≤ (s.luminous_flash_buffer.length : Int) := by
  have hinv := reachable_inv lum hs
  have hal := (reachable_aligned lum hs).1
  have hflags : ∀ g ∈ s.luminous_flash_buffer, ∀ i j, g.val i j = 0 ∨ g.val i j = 1 := by
    intro g hg
    rw [hal] at hg
    exact forall_mem_zipWith _ (fun g : Mat Int => ∀ i j, g.val i j = 0 ∨ g.val i j = 1)
      (fun a b i j => flashing_flag_zero_or_one _ _) _ _ g hg
  refine ⟨hflags, ?_⟩
  intro i j
  rw [hinv.lum_sum i j]
  have := sum_zero_one_bounds (s.luminous_flash_buffer.map fun g => g.val i j)
    (by
      intro v hv
      obtain ⟨g, hg, rfl⟩ := List.mem_map.1 hv
      exact hflags g hg i j)
  simpa using this

/-- Claim C20. In every reachable state every entry of the luminance accumulator
is an integer between 0 and the number of flag grids in `luminous_flash_buffer`
(each buffered flag being 0 or 1); this holds again in the state that ends an
iteration, so the subtraction of the evicted flag grid never makes a count
negative. -/
theorem accumulator_bounds (lum : P → α) {h w : Nat} {s : MainState P}
    (hs : Reachable lum h w s) :
    (∀ g ∈ s.luminous_flash_buffer, ∀ i j, g.val i j = 0 ∨ g.val i j = 1) ∧
    (∀ i j, 0 ≤ s.luminous_flashes.val i j ∧
      s.luminous_flashes.val i j ≤ (s.luminous_flash_buffer.length : Int)) ∧
    ∀ (frame : Mat P) (now : Int) (s2 : MainState P) (verdict : Option Bool),
      frame.rows = h → frame.cols = w →
      main_iteration lum (quarter_area_threshold w h) s frame now = Outcome.next s2 verdict →
      ∀ i j, 0 ≤ s2.luminous_flashes.val i j ∧
        s2.luminous_flashes.val i j ≤ (s2.luminous_flash_buffer.length : Int) := by
  have hb := reachable_bounds lum hs
  refine ⟨hb.1, hb.2, ?_⟩
  intro frame now s2 verdict hr hc hstep
  exact (reachable_bounds lum (Reachable.step hs hr hc hstep)).2

/-- Witness for C20: the state reached at the end of scenario A. -/
theorem accumulator_bounds_witness :
    ∃ s, main at_int 10 10 (alternating_stream 10 10 0 (float32_round (3 / 10)) 8 32) =
        some (s, List.replicate 17 false) ∧
      ∀ i j, 0 ≤ s.luminous_flashes.val i j ∧
        s.luminous_flashes.val i j ≤ (s.luminous_flash_buffer.length : Int) := by
  obtain ⟨s, hrun⟩ := scenario_A_run
  have h := accumulator_bounds at_int
    (main_loop_reachable at_int _ _ Reachable.init
      (alternating_stream_dims 10 10 _ _ 8 32) s _ hrun)
  exact ⟨s, hrun, h.2.1⟩

/-! ### The colorimetric transform on 8-bit samples -/

/-- Line 140 turns the samples 0 to 127 into 0 and the samples 128 to 255
into 1. -/
theorem normalise_eq (v : Nat) (hv : v ≤ 255) : normalise v = if v ≤ 127 then 0 else 1 := by
  have hvq : (v : ℚ) ≤ 255 := by exact_mod_cast hv
  have h0 : (0 : ℚ) ≤ v := Nat.cast_nonneg v
  unfold normalise
  split_ifs with h
  · have hq : (v : ℚ) ≤ 127 := by exact_mod_cast h
    rw [round_half_even_of_lt ((v : ℚ) / 255) 0
      (by
        have : (0 : ℚ) ≤ (v : ℚ) / 255 := by positivity
        push_cast
        linarith)
      (by
        push_cast
        rw [zero_add, div_lt_iff₀ (by norm_num)]
        linarith)]
    rfl
  · have hq : (128 : ℚ) ≤ v := by
      have : 128 ≤ v := by omega
      exact_mod_cast this
    rw [round_half_even_of_lt ((v : ℚ) / 255) 1
      (by
        push_cast
        rw [lt_div_iff₀ (by norm_num)]
        linarith)
      (by
        push_cast
        rw [div_lt_iff₀ (by norm_num)]
        linarith)]
    rfl

/-- The sample 0 takes the linear branch of `inverse_gamma_transform` and stays
0. -/
theorem inverse_gamma_transform_zero : inverse_gamma_transform Real.rpow 0 = 0 := by
  unfold inverse_gamma_transform
  rw [if_pos (by norm_num)]
  simp

/-- The sample 1 takes the power branch of `inverse_gamma_transform` and stays
1. -/
theorem inverse_gamma_transform_one : inverse_gamma_transform Real.rpow 1 = 1 := by
  unfold inverse_gamma_transform
  rw [if_neg (by norm_num)]
  have h : (((1 : Nat) : ℝ) + 55 / 1000) / (1055 / 1000) = 1 := by norm_num
  rw [h]
  simp

/-- The per-channel transform is a step: 0 on the samples 0 to 127 and 1 on the
samples 128 to 255. -/
theorem toLinear_eq (v : Nat) (hv : v ≤ 255) :
    toLinear Real.rpow v = if v ≤ 127 then 0 else 1 := by
  unfold toLinear
  rw [normalise_eq v hv]
  split_ifs
  · exact inverse_gamma_transform_zero
  · exact inverse_gamma_transform_one

/-- The luminance of a pixel of the 8-bit frame is the stored sum of the weights
of the channels that are at least 128. -/
theorem sample_luminance_eq (r g b : Nat) (hr : r ≤ 255) (hg : g ≤ 255) (hb : b ≤ 255) :
    sample_luminance Real.rpow (r, g, b) =
      float32_round (2126 / 10000 * (if r ≤ 127 then 0 else 1) +
        7152 / 10000 * (if g ≤ 127 then 0 else 1) + 722 / 10000 * (if b ≤ 127 then 0 else 1)) := by
  unfold sample_luminance linearRBG_to_Ls
  simp only [toLinear_eq r hr, toLinear_eq g hg, toLinear_eq b hb]
  split_ifs <;> simp

/-- Claim C8. On 8-bit samples the per-channel transform is monotone: for
`a ≤ b ≤ 255` the value produced by normalising `a` by 255 and applying
`inverse_gamma_transform` is at most the value produced for `b`.  In particular
the output does not decrease from `a = 10` to `a = 11` (both samples give 0);
the branch of line 161 switches between the samples 127 and 128, where the
output steps from 0 to 1. -/
theorem toLinear_monotone_8bit (a b : Nat) (hab : a ≤ b) (hb : b ≤ 255) :
    inverse_gamma_transform Real.rpow (normalise a) ≤
      inverse_gamma_transform Real.rpow (normalise b) ∧
    toLinear Real.rpow 10 ≤ toLinear Real.rpow 11 ∧
    toLinear Real.rpow 10 = 0 ∧ toLinear Real.rpow 11 = 0 ∧
    toLinear Real.rpow 127 = 0 ∧ toLinear Real.rpow 128 = 1 := by
  have ha : a ≤ 255 := le_trans hab hb
  have h := toLinear_eq a ha
  have h2 := toLinear_eq b hb
  unfold toLinear at h h2
  rw [h, h2, toLinear_eq 10 (by norm_num), toLinear_eq 11 (by norm_num),
    toLinear_eq 127 (by norm_num), toLinear_eq 128 (by norm_num)]
  refine ⟨?_, by norm_num, by norm_num, by norm_num, by norm_num, by norm_num⟩
  split_ifs <;> omega

/-- Witness for C8: the samples 10 and 11. -/
theorem toLinear_monotone_8bit_witness :
    inverse_gamma_transform Real.rpow (normalise 10) ≤
      inverse_gamma_transform Real.rpow (normalise 11) :=
  (toLinear_monotone_8bit 10 11 (by norm_num) (by norm_num)).1

/-- Claim C12. For every colour sample with three channels in [0, 255], the
relative luminance that the code stores (normalise by 255, `inverse_gamma_transform`
per channel, `0.2126 * R + 0.7152 * G + 0.0722 * B`) lies in [0, 1]; it is 0 for
black and 1 for white. -/
theorem sample_luminance_range (r g b : Nat) (hr : r ≤ 255) (hg : g ≤ 255) (hb : b ≤ 255) :
    0 ≤ sample_luminance Real.rpow (r, g, b) ∧ sample_luminance Real.rpow (r, g, b) ≤ 1 ∧
    sample_luminance Real.rpow (0, 0, 0) = 0 ∧
    sample_luminance Real.rpow (255, 255, 255) = 1 := by
  refine ⟨?_, ?_, ?_, ?_⟩
  · rw [sample_luminance_eq r g b hr hg hb]
    apply float32_round_nonneg
    split_ifs <;> norm_num
  · rw [sample_luminance_eq r g b hr hg hb]
    apply float32_round_le_one
    split_ifs <;> norm_num
  · rw [sample_luminance_eq 0 0 0 (by norm_num) (by norm_num) (by norm_num)]
    norm_num [float32_round_zero]
  · rw [sample_luminance_eq 255 255 255 (by norm_num) (by norm_num) (by norm_num)]
    norm_num [float32_round_one]

/-- Witness for C12: the sample (255, 128, 0), whose stored luminance is the
binary32 number nearest to `0.2126 + 0.7152 = 0.9278`. -/
theorem sample_luminance_range_witness :
    sample_luminance Real.rpow (255, 128, 0) = float32_round (9278 / 10000) ∧
    0 ≤ sample_luminance Real.rpow (255, 128, 0) ∧
    sample_luminance Real.rpow (255, 128, 0) ≤ 1 :=
  ⟨by
    rw [sample_luminance_eq 255 128 0 (by norm_num) (by norm_num) (by norm_num)]
    norm_num,
   (sample_luminance_range 255 128 0 (by norm_num) (by norm_num) (by norm_num)).1,
   (sample_luminance_range 255 128 0 (by norm_num) (by norm_num) (by norm_num)).2.1⟩

/-! ### Red features -/

/-- The quotient of line 238 for a pure red pixel, `255 / (255 + 1e-10)`, is
below 1 by less than half a unit of the last place of a binary32 number, so
the stored value is 1. -/
theorem float32_round_pure_red :
    float32_round (255 / (255 + 1 / 10000000000)) = 1 := by
  rw [float32_round_eq (255 / (255 + 1 / 10000000000)) (-1) 16777216 (by norm_num)
    (by norm_num [zpow_neg]) (by norm_num [zpow_neg]) (by norm_num)
    (round_half_even_of_lt _ _ (by norm_num [zpow_neg]) (by norm_num [zpow_neg]))]
  norm_num [zpow_neg]

/-- Claim C16 fails on the returned grid: for the pure red pixel (255, 0, 0)
the exact quotient is below 1, but the value that line 238 stores in the
binary32 result grid is exactly 1, so the result is not strictly below 1. -/
theorem red_ratio_counterexample :
    (255 : ℚ) / red_ratio_divisor (255, 0, 0) < 1 ∧
    red_ratio (255, 0, 0) = 1 ∧ ¬ (red_ratio (255, 0, 0) < 1) := by
  have h : red_ratio (255, 0, 0) = 1 := by
    unfold red_ratio red_ratio_divisor
    simp only [Nat.cast_ofNat, Nat.cast_zero, add_zero]
    exact float32_round_pure_red
  refine ⟨?_, h, ?_⟩
  · unfold red_ratio_divisor
    norm_num
  · rw [h]
    exact lt_irrefl 1

/-- Claim C16, amended. For every pixel of an 8-bit frame, pure black included,
the divisor of line 238 is positive, so the quotient is defined; the exact
quotient is at least 0 and below 1; the stored result is at least 0 and at
most 1, and it is exactly 0 when `R = 0`. -/
theorem red_ratio_bounds (r g b : Nat) :
    0 < red_ratio_divisor (r, g, b) ∧
    0 ≤ (r : ℚ) / red_ratio_divisor (r, g, b) ∧ (r : ℚ) / red_ratio_divisor (r, g, b) < 1 ∧
    0 ≤ red_ratio (r, g, b) ∧ red_ratio (r, g, b) ≤ 1 ∧
    (r = 0 → red_ratio (r, g, b) = 0) := by
  have hr : (0 : ℚ) ≤ r := Nat.cast_nonneg r
  have hg : (0 : ℚ) ≤ g := Nat.cast_nonneg g
  have hb : (0 : ℚ) ≤ b := Nat.cast_nonneg b
  have hd : 0 < red_ratio_divisor (r, g, b) := by
    unfold red_ratio_divisor
    simp only
    linarith
  have hq0 : 0 ≤ (r : ℚ) / red_ratio_divisor (r, g, b) := div_nonneg hr hd.le
  have hq1 : (r : ℚ) / red_ratio_divisor (r, g, b) < 1 := by
    rw [div_lt_one hd]
    unfold red_ratio_divisor
    simp only
    linarith
  refine ⟨hd, hq0, hq1, float32_round_nonneg _ hq0, float32_round_le_one _ hq1.le, ?_⟩
  intro h0
  unfold red_ratio
  simp only [h0, Nat.cast_zero, zero_div]
  exact float32_round_zero

/-! ### The classifier and the decision rule on the stored bits -/

/-- Claim C1 evaluated on the code. `is_luminance_flash` returns a grid of the
dimensions of `ls`, but it flags a pixel from the integers that `at<int>` reads
from the two binary32 luminances, not from the luminances.  The luminances 0.5
and 0.3 differ by at least 0.1 with the darker one below 0.8, and the pixel is
not flagged; the luminances 0.05 and 0 differ by less than 0.1, and the pixel
is flagged. -/
theorem is_luminance_flash_reads_bit_patterns :
    (∀ (ls prev_ls : Mat ℚ) (i j : Nat),
      (is_luminance_flash_f32 ls prev_ls).rows = ls.rows ∧
      (is_luminance_flash_f32 ls prev_ls).cols = ls.cols ∧
      ((is_luminance_flash_f32 ls prev_ls).val i j = 1 ↔
        (max (at_int (ls.val i j)) (at_int (prev_ls.val i j)) -
            min (at_int (ls.val i j)) (at_int (prev_ls.val i j)) ≥ 1 / 10 ∧
          min (at_int (ls.val i j)) (at_int (prev_ls.val i j)) < 8 / 10))) ∧
    float32_round (1 / 2) = 1 / 2 ∧
    (max (1 / 2) (float32_round (3 / 10)) - min (1 / 2) (float32_round (3 / 10)) ≥ 1 / 10 ∧
      min (1 / 2) (float32_round (3 / 10)) < 8 / 10) ∧
    at_int (1 / 2) = 1056964608 ∧ at_int (float32_round (3 / 10)) = 1050253722 ∧
    (is_luminance_flash_f32 (uniform_grid 1 1 (1 / 2))
      (uniform_grid 1 1 (float32_round (3 / 10)))).val 0 0 = 0 ∧
    ¬ (max (float32_round (1 / 20)) 0 - min (float32_round (1 / 20)) 0 ≥ 1 / 10) ∧
    at_int (float32_round (1 / 20)) = 1028443341 ∧ at_int 0 = 0 ∧
    (is_luminance_flash_f32 (uniform_grid 1 1 (float32_round (1 / 20)))
      (uniform_grid 1 1 0)).val 0 0 = 1 := by
  refine ⟨fun ls prev_ls i j => ⟨rfl, rfl, flag_eq_one_iff _ _⟩, float32_round_half, ?_, at_int_half,
    at_int_three_tenths, ?_, ?_, at_int_one_twentieth, at_int_zero, ?_⟩
  · rw [float32_round_three_tenths]
    norm_num
  · simp only [is_luminance_flash_f32, is_luminance_flash, Mat.map, uniform_grid, at_int_half,
      at_int_three_tenths]
    norm_num [flashing_flag, brighter_ls, darker_ls]
  · rw [float32_round_one_twentieth]
    norm_num
  · simp only [is_luminance_flash_f32, is_luminance_flash, Mat.map, uniform_grid,
      at_int_one_twentieth, at_int_zero]
    norm_num [flashing_flag, brighter_ls, darker_ls]

/-- The scaled count `15 / 2` is a tie and rounds to the even integer 8. -/
theorem pixel_freq_fifteen_one : pixel_freq 15 1 = 8 := by
  unfold pixel_freq round_half_even
  have hq : (((15 : Int) : ℚ) * (1 / 2 * (1 / ((1 : Int) : ℚ)))) = 15 / 2 := by norm_num
  have hf : ⌊(15 / 2 : ℚ)⌋ = 7 := Int.floor_eq_iff.mpr ⟨by norm_num, by norm_num⟩
  rw [hq, hf]
  norm_num

/-- Claim C4 evaluated on the code. For a count `c` from 0 up to `2 ^ 23 - 1` and
an interval `t ≥ 1` the pixel is never counted as qualifying, whatever
`(c / 2) / t` is: the entry of the frequency grid is a 32-bit integer, and line
103 reads its bits as a binary32 number.  For `c = 12` and `t = 2` the exact
frequency is 3 and `c ≥ 6 * t`, the entry is the integer 3, its bits read as a
binary32 number are `3 * 2 ^ (-149)`, and no pixel of a 10 x 10 grid of such
counts is counted. -/
theorem frequency_read_as_float :
    (∀ c t : Int, 0 ≤ c → c < 2 ^ 23 → 1 ≤ t →
      float32_ge (int32_pattern (pixel_freq c t)) 3 = false) ∧
    ((12 : ℚ) / 2 / 2 ≥ 3) ∧ ((12 : Int) ≥ 6 * 2) ∧
    pixel_freq 12 2 = 3 ∧
    float32_value (int32_pattern 3) = 3 / 2 ^ 149 ∧
    float32_ge (int32_pattern (pixel_freq 12 2)) 3 = false ∧
    count_flashing (flash_freq ⟨10, 10, fun _ _ => 12⟩ 2) = 0 := by
  have hgen : ∀ c t : Int, 0 ≤ c → c < 2 ^ 23 → 1 ≤ t →
      float32_ge (int32_pattern (pixel_freq c t)) 3 = false := by
    intro c t hc hc2 ht
    have hb := pixel_freq_bounds c t hc ht
    exact float32_ge_small _ hb.1 (by omega)
  have h12 : pixel_freq 12 2 = 3 := by
    unfold pixel_freq
    have hq : (((12 : Int) : ℚ) * (1 / 2 * (1 / ((2 : Int) : ℚ)))) = ((3 : Int) : ℚ) := by
      norm_num
    rw [hq, round_half_even_intCast]
  refine ⟨hgen, by norm_num, by norm_num, h12, ?_, hgen 12 2 (by norm_num) (by norm_num)
    (by norm_num), ?_⟩
  · have hp : int32_pattern 3 = 3 := by decide
    rw [hp]
    norm_num [float32_value]
  · apply count_flashing_small
    intro i j
    simp only [flash_freq, h12]
    norm_num

/-- The binary32 number nearest to 0.0722, the luminance weight of the blue
channel. -/
theorem float32_round_blue : float32_round (722 / 10000) = 1211315 / 16777216 := by
  rw [float32_round_eq (722 / 10000) (-4) 9690520 (by norm_num) (by norm_num [zpow_neg])
    (by norm_num [zpow_neg]) (by norm_num)
    (round_half_even_of_lt _ _ (by norm_num [zpow_neg]) (by norm_num [zpow_neg]))]
  norm_num [zpow_neg]

/-- What `is_luminance_flash` reads for a pure blue pixel and for a black pixel of
an 8-bit frame. -/
theorem luminance_at_int_blue :
    sample_luminance Real.rpow (0, 0, 255) = 1211315 / 16777216 ∧
    sample_luminance Real.rpow (0, 0, 0) = 0 ∧
    luminance_at_int Real.rpow (0, 0, 255) = 1033100696 ∧
    luminance_at_int Real.rpow (0, 0, 0) = 0 := by
  have h1 : sample_luminance Real.rpow (0, 0, 255) = 1211315 / 16777216 := by
    rw [sample_luminance_eq 0 0 255 (by norm_num) (by norm_num) (by norm_num)]
    norm_num
    rw [show (361 / 5000 : ℚ) = 722 / 10000 by norm_num]
    exact float32_round_blue
  have h2 : sample_luminance Real.rpow (0, 0, 0) = 0 := by
    rw [sample_luminance_eq 0 0 0 (by norm_num) (by norm_num) (by norm_num)]
    norm_num [float32_round_zero]
  refine ⟨h1, h2, ?_, ?_⟩
  · unfold luminance_at_int
    rw [h1]
    unfold at_int
    rw [float32_bits_eq (1211315 / 16777216) (-4) 9690520 123 (by norm_num)
      (by norm_num [zpow_neg]) (by norm_num [zpow_neg]) (by norm_num)
      ((Nat.floor_eq_iff (by positivity)).mpr ⟨by norm_num [zpow_neg], by norm_num [zpow_neg]⟩)
      (by norm_num) (by norm_num)]
    norm_num [float32_at_int]
  · unfold luminance_at_int
    rw [h2]
    exact at_int_zero

/-- Claim C9 evaluated on the code. On the 10 x 10 stream that alternates between
the luminances 0 and 0.05, whose difference is below 0.1, the flag grid of the
second frame against the first is 1 at every pixel, not 0: the comparison is
made on the integers read by `at<int>`.  The run on two frames ends with that
grid in the flag buffer; the run on 32 frames at 8 frames per second emits 17
verdicts, all `false`.  The same holds for 8-bit colour frames: a pure blue
frame after a black one has the luminances 0.0722 and 0, and every pixel is
flagged. -/
theorem quiet_stream_is_flagged :
    |float32_round (1 / 20) - 0| < 1 / 10 ∧
    (∀ i j, (luminance_flash_count at_int (uniform_grid 10 10 (float32_round (1 / 20)))
      (uniform_grid 10 10 0)).val i j = 1) ∧
    (∃ s, main at_int 10 10 (alternating_stream 10 10 0 (float32_round (1 / 20)) 8 2) =
        some (s, []) ∧
      s.luminous_flash_buffer = [luminance_flash_count at_int
        (uniform_grid 10 10 (float32_round (1 / 20))) (uniform_grid 10 10 0)]) ∧
    (∃ s, main at_int 10 10 (alternating_stream 10 10 0 (float32_round (1 / 20)) 8 32) =
      some (s, List.replicate 17 false)) ∧
    |sample_luminance Real.rpow (0, 0, 255) - sample_luminance Real.rpow (0, 0, 0)| < 1 / 10 ∧
    ∀ i j, (luminance_flash_count (luminance_at_int Real.rpow)
      (⟨10, 10, fun _ _ => (0, 0, 255)⟩ : Mat (Nat × Nat × Nat))
      ⟨10, 10, fun _ _ => (0, 0, 0)⟩).val i j = 1 := by
  refine ⟨?_, ?_, ⟨_, rfl, rfl⟩, ?_, ?_, ?_⟩
  · rw [float32_round_one_twentieth]
    norm_num [abs_lt]
  · intro i j
    simp only [luminance_flash_count, is_luminance_flash, Mat.map, uniform_grid,
      at_int_one_twentieth, at_int_zero]
    norm_num [flashing_flag, brighter_ls, darker_ls]
  · exact scenario_timing_run at_int _ (alternating_stream_dims 10 10 0 _ 8 32)
      (alternating_stream_times 10 10 0 _ 8 32)
  · rw [luminance_at_int_blue.1, luminance_at_int_blue.2.1]
    norm_num [abs_lt]
  · intro i j
    simp only [luminance_flash_count, is_luminance_flash, Mat.map, luminance_at_int_blue.2.2.1,
      luminance_at_int_blue.2.2.2]
    norm_num [flashing_flag, brighter_ls, darker_ls]

/-- Claim C10 evaluated on the code. Scenario A emits 17 verdicts and every one
of them is `false`, for the luminances 0 and 0.3 read by `at<int>` and for any
other reading of any two values.  Every pixel is flagged between two
consecutive frames, so the count of a pixel is 15; the entry of the frequency
grid is then the integer 8 (interval 1) or 4 (interval 2), and its bits read as
a binary32 number are below 3. -/
theorem scenario_A_never_detects :
    (∃ s, main at_int 10 10 (alternating_stream 10 10 0 (float32_round (3 / 10)) 8 32) =
      some (s, List.replicate 17 false)) ∧
    (∀ (lum : ℚ → ℚ) (a b : ℚ), ∃ s, main lum 10 10 (alternating_stream 10 10 a b 8 32) =
      some (s, List.replicate 17 false)) ∧
    (∀ i j, (luminance_flash_count at_int (uniform_grid 10 10 (float32_round (3 / 10)))
      (uniform_grid 10 10 0)).val i j = 1) ∧
    (∀ i j, (luminance_flash_count at_int (uniform_grid 10 10 0)
      (uniform_grid 10 10 (float32_round (3 / 10)))).val i j = 1) ∧
    pixel_freq 15 1 = 8 ∧
    float32_ge (int32_pattern (pixel_freq 15 1)) 3 = false ∧
    float32_ge (int32_pattern (pixel_freq 15 2)) 3 = false := by
  refine ⟨?_, ?_, ?_, ?_, pixel_freq_fifteen_one, ?_, ?_⟩
  · exact scenario_timing_run at_int _ (alternating_stream_dims 10 10 0 _ 8 32)
      (alternating_stream_times 10 10 0 _ 8 32)
  · intro lum a b
    exact scenario_timing_run lum _ (alternating_stream_dims 10 10 a b 8 32)
      (alternating_stream_times 10 10 a b 8 32)
  · intro i j
    simp only [luminance_flash_count, is_luminance_flash, Mat.map, uniform_grid,
      at_int_three_tenths, at_int_zero]
    norm_num [flashing_flag, brighter_ls, darker_ls]
  · intro i j
    simp only [luminance_flash_count, is_luminance_flash, Mat.map, uniform_grid,
      at_int_three_tenths, at_int_zero]
    norm_num [flashing_flag, brighter_ls, darker_ls]
  · exact float32_ge_small _ (pixel_freq_bounds 15 1 (by norm_num) (by norm_num)).1
      (by have := (pixel_freq_bounds 15 1 (by norm_num) (by norm_num)).2; omega)
  · exact float32_ge_small _ (pixel_freq_bounds 15 2 (by norm_num) (by norm_num)).1
      (by have := (pixel_freq_bounds 15 2 (by norm_num) (by norm_num)).2; omega)

set_option maxRecDepth 100000 in
/-- Claim C11 evaluated on the code. With the timing of scenario A the run emits
17 verdicts, all `false`, for every set `S` of alternating pixels, every pair of
values and every background: also for the set of the first three rows, which
has 30 pixels. -/
theorem scenario_D_never_detects :
    (∀ (lum : ℚ → ℚ) (S : Nat → Nat → Bool) (a b : ℚ) (c : Nat → Nat → ℚ),
      ∃ s, main lum 10 10 (region_stream 10 10 S a b c 8 32) =
        some (s, List.replicate 17 false)) ∧
    pixel_count 10 10 (fun i _ => decide (i < 3)) = 30 ∧
    ∃ s, main at_int 10 10 (region_stream 10 10 (fun i _ => decide (i < 3)) 0
        (float32_round (3 / 10)) (fun _ _ => 0) 8 32) =
      some (s, List.replicate 17 false) := by
  refine ⟨?_, by decide, ?_⟩
  · intro lum S a b c
    exact scenario_timing_run lum _ (region_stream_dims 10 10 S a b c 8 32)
      (region_stream_times 10 10 S a b c 8 32)
  · exact scenario_timing_run at_int _ (region_stream_dims 10 10 _ _ _ _ 8 32)
      (region_stream_times 10 10 _ _ _ _ 8 32)

/-! ### The window step and the safety of the decision block -/

/-- Claim C5. In a reachable state, an iteration that runs to its end on a frame
of the working resolution has appended one frame and one timestamp; the
decision block ran, and a verdict was emitted, exactly when the frame buffer
then held at least 16 frames and the newest timestamp exceeded the oldest by at
least one second; when it ran, exactly the oldest entry of each of the four
buffers was dropped, and otherwise nothing was dropped and no verdict was
emitted. -/
theorem iteration_window_step (lum : P → α) {h w : Nat} {s : MainState P}
    (hs : Reachable lum h w s) (frame : Mat P) (now : Int)
    (hr : frame.rows = h) (hc : frame.cols = w) (s1 : MainState P) (verdict : Option Bool)
    (hit : main_iteration lum (quarter_area_threshold w h) s frame now =
      Outcome.next s1 verdict) :
    (verdict.isSome = true ↔
      ((s.frame_buffer ++ [frame]).length ≥ 16 ∧
        now - (s.time_buffer ++ [now]).headD now ≥ 1)) ∧
    (verdict.isSome = true →
      ∃ f t g r,
        s.frame_buffer ++ [frame] = f :: s1.frame_buffer ∧
        s.time_buffer ++ [now] = t :: s1.time_buffer ∧
        s.luminous_flash_buffer ++
          (s.frame_buffer.getLast?.map fun prev => luminance_flash_count lum frame prev).toList
            = g :: s1.luminous_flash_buffer ∧
        s.red_flash_buffer ++
          (s.frame_buffer.getLast?.map fun prev => saturated_red_flash_count frame prev).toList
            = r :: s1.red_flash_buffer) ∧
    (verdict = none →
      s1.frame_buffer = s.frame_buffer ++ [frame] ∧
      s1.time_buffer = s.time_buffer ++ [now] ∧
      s1.luminous_flash_buffer = s.luminous_flash_buffer ++
        (s.frame_buffer.getLast?.map fun prev => luminance_flash_count lum frame prev).toList ∧
      s1.red_flash_buffer = s.red_flash_buffer ++
        (s.frame_buffer.getLast?.map fun prev => saturated_red_flash_count frame prev).toList) := by
  have hinv := reachable_inv lum hs
  have hne := iteration_next_nonempty lum _ hit
  obtain ⟨sa, _, _, hfb, htb, hlfb, hrfb, hcase⟩ :=
    iteration_spec lum (quarter_area_threshold w h) hinv frame now hr hc hne
  have hint := interval_of_append s.time_buffer now
  have hcond : (sa.frame_buffer.length ≥ BUFFER_SIZE ∧ interval_of sa.time_buffer ≥ 1) ↔
      ((s.frame_buffer ++ [frame]).length ≥ 16 ∧
        now - (s.time_buffer ++ [now]).headD now ≥ 1) := by
    rw [hfb, htb, hint]
    exact Iff.rfl
  have hred : (s.frame_buffer.getLast?.map fun prev => saturated_red_flash_count frame prev) =
      (s.frame_buffer.getLast?.map fun _ => zeros 1 1) := rfl
  rw [hred]
  rcases hcase with ⟨hc1, hc2, s2, hit2, _, e1, e2, e3, e4, e5, e6⟩ | ⟨hnc, hit2⟩
  · rw [hit2] at hit
    cases hit
    refine ⟨?_, ?_, ?_⟩
    · simp only [Option.isSome_some, true_iff]
      exact hcond.1 ⟨hc1, hc2⟩
    · intro _
      rw [← hfb, ← htb, ← hlfb, ← hrfb, e1, e2, e3, e4]
      have n1 : sa.frame_buffer ≠ [] := by rw [hfb]; simp
      have n2 : sa.time_buffer ≠ [] := by rw [htb]; simp
      exact ⟨sa.frame_buffer.head n1, sa.time_buffer.head n2, sa.luminous_flash_buffer.head e5,
        sa.red_flash_buffer.head e6, (List.head_cons_tail _ n1).symm,
        (List.head_cons_tail _ n2).symm, (List.head_cons_tail _ e5).symm,
        (List.head_cons_tail _ e6).symm⟩
    · intro hnone
      cases hnone
  · rw [hit2] at hit
    cases hit
    refine ⟨?_, ?_, ?_⟩
    · simp only [Option.isSome_none, Bool.false_eq_true, false_iff]
      exact fun hx => hnc (hcond.2 hx)
    · intro habs
      cases habs
    · intro _
      exact ⟨hfb, htb, hlfb, hrfb⟩

/-- Witness for C5: the 16th frame of scenario A, stamped 1, arrives on the
window of the first 15 frames; the decision block runs, a verdict is emitted
and the oldest entry of each buffer is dropped. -/
theorem iteration_window_step_witness :
    ∃ s s1 verdict,
      main at_int 10 10 (alternating_stream 10 10 0 (float32_round (3 / 10)) 8 15) = some (s, []) ∧
      main_iteration at_int (quarter_area_threshold 10 10) s
        (uniform_grid 10 10 (float32_round (3 / 10))) 1 = Outcome.next s1 (some verdict) ∧
      ((s.frame_buffer ++ [uniform_grid 10 10 (float32_round (3 / 10))]).length ≥ 16 ∧
        1 - (s.time_buffer ++ [1]).headD 1 ≥ 1) ∧
      ∃ f t g r,
        s.frame_buffer ++ [uniform_grid 10 10 (float32_round (3 / 10))] = f :: s1.frame_buffer ∧
        s.time_buffer ++ [1] = t :: s1.time_buffer ∧
        s.luminous_flash_buffer ++
          (s.frame_buffer.getLast?.map fun prev =>
            luminance_flash_count at_int (uniform_grid 10 10 (float32_round (3 / 10))) prev).toList
            = g :: s1.luminous_flash_buffer ∧
        s.red_flash_buffer ++
          (s.frame_buffer.getLast?.map fun prev =>
            saturated_red_flash_count (uniform_grid 10 10 (float32_round (3 / 10))) prev).toList
            = r :: s1.red_flash_buffer := by
  obtain ⟨s, hrun, hreach, hlen, htb⟩ := filled_window
  obtain ⟨_, s2, verdict, _, _, hit⟩ := filled_window_step hreach hlen htb
  have h := iteration_window_step at_int hreach (uniform_grid 10 10 (float32_round (3 / 10))) 1
    rfl rfl s2 (some verdict) hit
  exact ⟨s, s2, verdict, hrun, hit, h.1.1 rfl, h.2.1 rfl⟩

/-- Claim C19. In a reachable state, after the push of a frame of the working
resolution and the accumulation of lines 76-87, whenever the guard of line 91
holds, so that the decision and eviction block executes: the interval used as
divisor is at least 1 and so not 0, the time buffer is not empty, so the read
of `time_buffer[0]` is in bounds, the frame and time buffers hold at least 16
entries and the two flag buffers at least 15, and none of the four buffers is
empty, so every `front()` and `pop_front()` acts on a non-empty deque. -/
theorem decision_block_safe (lum : P → α) {h w : Nat} {s : MainState P}
    (hs : Reachable lum h w s) (frame : Mat P) (now : Int)
    (hr : frame.rows = h) (hc : frame.cols = w) (s1 : MainState P)
    (hacc : accumulate lum ⟨s.frame_buffer ++ [frame], s.time_buffer ++ [now],
        s.luminous_flash_buffer, s.red_flash_buffer, s.luminous_flashes, s.red_flashes⟩
          = Except.ok s1)
    (hguard : s1.frame_buffer.length ≥ BUFFER_SIZE ∧ interval_of s1.time_buffer ≥ 1) :
    interval_of s1.time_buffer ≥ 1 ∧ interval_of s1.time_buffer ≠ 0 ∧
    0 < s1.time_buffer.length ∧ s1.time_buffer.length - 1 < s1.time_buffer.length ∧
    16 ≤ s1.frame_buffer.length ∧ 16 ≤ s1.time_buffer.length ∧
    15 ≤ s1.luminous_flash_buffer.length ∧ 15 ≤ s1.red_flash_buffer.length ∧
    s1.frame_buffer ≠ [] ∧ s1.time_buffer ≠ [] ∧
    s1.luminous_flash_buffer ≠ [] ∧ s1.red_flash_buffer ≠ [] := by
  have hinv := reachable_inv lum hs
  obtain ⟨sa, hacc2, hinv1, _⟩ := accumulate_spec lum hinv frame now hr hc
  rw [hacc] at hacc2
  cases hacc2
  have h16 : 16 ≤ s1.frame_buffer.length := hguard.1
  have hl := hinv1.lum_len
  have hrl := hinv1.red_len
  have htl := hinv1.time_len
  have hi := hguard.2
  refine ⟨hguard.2, by omega, by omega, by omega, h16, by omega, by omega, by omega, ?_, ?_, ?_, ?_⟩
  · intro h0; rw [h0] at h16; simp at h16
  · intro h0; rw [h0] at htl; simp at htl; omega
  · intro h0; rw [h0] at hl; simp at hl; omega
  · intro h0; rw [h0] at hrl; simp at hrl; omega

/-- Witness for C19: the 16th frame of scenario A, stamped 1, arrives on the
window of the first 15 frames; the guard of line 91 holds and the block
executes on buffers of 16, 16, 15 and 15 entries. -/
theorem decision_block_safe_witness :
    ∃ s s1,
      main at_int 10 10 (alternating_stream 10 10 0 (float32_round (3 / 10)) 8 15) = some (s, []) ∧
      accumulate at_int ⟨s.frame_buffer ++ [uniform_grid 10 10 (float32_round (3 / 10))],
        s.time_buffer ++ [1], s.luminous_flash_buffer, s.red_flash_buffer, s.luminous_flashes,
        s.red_flashes⟩ = Except.ok s1 ∧
      (s1.frame_buffer.length ≥ BUFFER_SIZE ∧ interval_of s1.time_buffer ≥ 1) ∧
      interval_of s1.time_buffer ≠ 0 ∧
      16 ≤ s1.frame_buffer.length ∧ 16 ≤ s1.time_buffer.length ∧
      15 ≤ s1.luminous_flash_buffer.length ∧ 15 ≤ s1.red_flash_buffer.length ∧
      s1.luminous_flash_buffer ≠ [] ∧ s1.red_flash_buffer ≠ [] := by
  obtain ⟨s, hrun, hreach, hlen, htb⟩ := filled_window
  obtain ⟨s1, _, _, hacc, hguard, _⟩ := filled_window_step hreach hlen htb
  have h := decision_block_safe at_int hreach (uniform_grid 10 10 (float32_round (3 / 10))) 1
    rfl rfl s1 hacc hguard
  exact ⟨s, s1, hrun, hacc, hguard, h.2.1, h.2.2.2.2.1, h.2.2.2.2.2.1, h.2.2.2.2.2.2.1,
    h.2.2.2.2.2.2.2.1, h.2.2.2.2.2.2.2.2.2.2.1, h.2.2.2.2.2.2.2.2.2.2.2⟩

end LoopLemmas

end FlashGuard
